import Mathlib

/-!
Verification development for the rule-based code conversion engine
(`src/utils/codeConverter.ts` and `src/utils/languageDetection.ts`).

The TypeScript source manipulates JavaScript strings with regular
expressions.  We embed strings as `List Char` and give an executable
semantics to exactly the regular-expression features the source uses
(literals, greedy `*`/`+` with backtracking, lazy `*?`, character
classes `\s \w \d . [^x]`, capture groups, alternation of literal
words, the multiline `$` anchor and the word boundary `\b`), together
with JavaScript's `String.replace` semantics for global regex
replacement (left-to-right, non-overlapping, matches computed on the
source text) and for first-occurrence literal-string replacement.

Character classes are modelled at ASCII scope (the JS classes also
contain exotic Unicode whitespace); numbers in the test simulator are
modelled as integers with an explicit NaN, which covers every value the
claims mention.
-/

set_option maxRecDepth 4000

/-- Strings of the embedded programs: lists of characters. -/
abbrev Str := List Char

/-- Coercion from Lean string literals to the embedding. -/
def str (s : String) : Str := s.data

/-- JS `\s` at ASCII scope (space, tab, newline, carriage return, vertical tab, form feed). -/
def wsChar (c : Char) : Bool :=
  c = ' ' || c = '\t' || c = '\n' || c = '\r' || c = '\x0b' || c = '\x0c'

/-- JS `\w`: ASCII letters, digits and underscore. -/
def wordChar (c : Char) : Bool :=
  ('a' ≤ c && c ≤ 'z') || ('A' ≤ c && c ≤ 'Z') || ('0' ≤ c && c ≤ '9') || c = '_'

/-- JS `\d`. -/
def digitChar (c : Char) : Bool := '0' ≤ c && c ≤ '9'

/-- JS `.` without the `s` flag: anything but a line terminator (ASCII scope). -/
def dotChar (c : Char) : Bool := !(c = '\n' || c = '\r')

/-- Any character (the `[\s\S]` idiom). -/
def anyChar (_ : Char) : Bool := true

/-- The backtick character, obtained from a string literal. -/
def btick : Char := List.headD (str ("`")) ' '

/-- The left brace character. -/
def lbrace : Char := List.headD (str ("\x7b")) ' '

/-- The right brace character. -/
def rbrace : Char := List.headD (str ("\x7d")) ' '

/-- Does `p` occur at the start of `s`? -/
def startsW : Str → Str → Bool
  | [], _ => true
  | _ :: _, [] => false
  | p :: ps, c :: cs => p = c && startsW ps cs

/-- Split `s` at the first occurrence of `pat`: returns the part before
the occurrence and the part after it.  The empty pattern occurs at
position 0, as in JavaScript's `indexOf`. -/
def splitFirst (pat : Str) : Str → Option (Str × Str)
  | [] => if startsW pat [] then some ([], []) else none
  | c :: t =>
      if startsW pat (c :: t) then some ([], (c :: t).drop pat.length)
      else (splitFirst pat t).map (fun ab => (c :: ab.1, ab.2))

/-- JS `String.prototype.includes`. -/
def hasSub (s sub : Str) : Bool := (splitFirst sub s).isSome

/-- JS `String.prototype.replace` with a string pattern: replace the
first occurrence of `pat` by `ins`, literally.  (None of the source's
replacement strings contains `$$`, `$&` or a backreference to an
existing capture group, so ECMAScript `GetSubstitution` inserts the
replacement text literally.) -/
def replaceStr (pat ins : Str) (s : Str) : Str :=
  match splitFirst pat s with
  | some ab => ab.1 ++ ins ++ ab.2
  | none => s

/-- Length of the maximal prefix run of characters satisfying `p`. -/
def runLen (p : Char → Bool) : Str → Nat
  | [] => 0
  | c :: t => if p c then runLen p t + 1 else 0

/-- Regular-expression tokens, covering exactly the constructs used by
the source's patterns.  Capture groups are expressed by the
`openG`/`closeG` brackets (the source has no nested groups). -/
inductive Tok where
  | lit (c : Char)
  | star (p : Char → Bool)
  | plus (p : Char → Bool)
  | lazyStar (p : Char → Bool)
  | openG
  | closeG
  | eol
  | bdry
  | altLits (opts : List Str)

/-- Greedy backtracking loop for `star`: try consuming `k` characters
of the run first, then shorter prefixes.  `cont` receives the consumed
text, the new previous-character and the rest of the input. -/
def starTry (cont : Str → Option Char → Str → Option (Nat × List Str))
    (prev : Option Char) (s : Str) : Nat → Option (Nat × List Str)
  | 0 => cont [] prev s
  | k + 1 =>
      match cont (s.take (k + 1))
        (match (s.take (k + 1)).getLast? with | some d => some d | none => prev)
        (s.drop (k + 1)) with
      | some nc => some (k + 1 + nc.1, nc.2)
      | none => starTry cont prev s k

/-- Lazy loop for `*?`: try the continuation first, then consume one
more character of the class.  `fuel` bounds the extension by the length
of the remaining input. -/
def lazyTry (p : Char → Bool)
    (cont : Str → Option Char → Str → Option (Nat × List Str)) :
    Nat → Str → Option Char → Str → Option (Nat × List Str)
  | 0, done, prev, s => (cont done prev s).map (fun nc => (done.length + nc.1, nc.2))
  | fuel + 1, done, prev, s =>
      match cont done prev s with
      | some nc => some (done.length + nc.1, nc.2)
      | none =>
          match s with
          | [] => none
          | c :: t =>
              if p c then lazyTry p cont fuel (done ++ [c]) (some c) t else none

/-- Alternation of literal words, tried in source order with
backtracking into the continuation. -/
def altTry (cont : Str → Option Char → Str → Option (Nat × List Str))
    (prev : Option Char) (s : Str) : List Str → Option (Nat × List Str)
  | [] => none
  | opt :: rest =>
      if startsW opt s then
        match cont opt
          (match opt.getLast? with | some d => some d | none => prev)
          (s.drop opt.length) with
        | some nc => some (opt.length + nc.1, nc.2)
        | none => altTry cont prev s rest
      else altTry cont prev s rest

/-- Is the previous character a word character? (`none` = start of input). -/
def isWordO : Option Char → Bool
  | some c => wordChar c
  | none => false

/-- The backtracking matcher: match the token list at the head of `s`.
`pend` accumulates the text of the currently open capture group, `prev`
is the character before the current position (for `\b`), and the result
is the number of characters consumed together with the captured
strings in group order. -/
def matchToks : List Tok → Option Str → Option Char → Str → Option (Nat × List Str)
  | [], _, _, _ => some (0, [])
  | .lit c :: ts, pend, _, s =>
      match s with
      | [] => none
      | d :: s' =>
          if d = c then
            (matchToks ts (pend.map (· ++ [d])) (some d) s').map (fun nc => (nc.1 + 1, nc.2))
          else none
  | .star p :: ts, pend, prev, s =>
      starTry (fun consumed prev' s' => matchToks ts (pend.map (· ++ consumed)) prev' s')
        prev s (runLen p s)
  | .plus p :: ts, pend, _, s =>
      match s with
      | [] => none
      | c :: t =>
          if p c then
            (starTry
                (fun consumed prev' s' =>
                  matchToks ts (pend.map (· ++ ([c] ++ consumed))) prev' s')
                (some c) t (runLen p t)).map
              (fun nc => (nc.1 + 1, nc.2))
          else none
  | .lazyStar p :: ts, pend, prev, s =>
      lazyTry p (fun done prev' s' => matchToks ts (pend.map (· ++ done)) prev' s')
        s.length [] prev s
  | .openG :: ts, _, prev, s => matchToks ts (some []) prev s
  | .closeG :: ts, pend, prev, s =>
      (matchToks ts none prev s).map (fun nc => (nc.1, pend.getD [] :: nc.2))
  | .eol :: ts, pend, prev, s =>
      match s with
      | [] => matchToks ts pend prev []
      | c :: _ => if c = '\n' || c = '\r' then matchToks ts pend prev s else none
  | .bdry :: ts, pend, prev, s =>
      if isWordO prev != (match s with | c :: _ => wordChar c | [] => false) then
        matchToks ts pend prev s
      else none
  | .altLits opts :: ts, pend, prev, s =>
      altTry (fun opt prev' s' => matchToks ts (pend.map (· ++ opt)) prev' s') prev s opts

/-- Match a pattern at the head of `s` with no capture group open. -/
def matchPat (toks : List Tok) (prev : Option Char) (s : Str) : Option (Nat × List Str) :=
  matchToks toks none prev s

/-- Scan for the leftmost match, returning its captures (the semantics
of a single `RegExp.exec` / `String.match`). -/
def firstCaps (toks : List Tok) : Option Char → Str → Option (List Str)
  | prev, [] => (matchPat toks prev []).map (·.2)
  | prev, c :: t =>
      match matchPat toks prev (c :: t) with
      | some nc => some nc.2
      | none => firstCaps toks (some c) t

/-- `RegExp.prototype.test` (the source creates the regex objects
freshly on each call, so `lastIndex` state never carries over). -/
def testPat (toks : List Tok) (s : Str) : Bool := (firstCaps toks none s).isSome

/-- Global regex replacement, scanning left to right on the source
text; replacements are spliced in and never rescanned, exactly as
JavaScript's `String.replace` with a `g` regex.  A zero-width match
steps over one character (none of the source's patterns can match the
empty string, so this branch is unreachable for them).  The `fuel`
argument only bounds the recursion and is initialized to the input
length, which every run respects because each step consumes at least
one character. -/
def replaceAllAux (toks : List Tok) (rep : List Str → Str) : Nat → Option Char → Str → Str
  | 0, _, s => s
  | _ + 1, _, [] => []
  | fuel + 1, prev, c :: t =>
      match matchPat toks prev (c :: t) with
      | some nc =>
          if 0 < nc.1 then
            rep nc.2 ++
              replaceAllAux toks rep fuel
                (match ((c :: t).take nc.1).getLast? with | some d => some d | none => prev)
                ((c :: t).drop nc.1)
          else c :: replaceAllAux toks rep fuel (some c) t
      | none => c :: replaceAllAux toks rep fuel (some c) t

/-- Global regex replacement of `toks` by `rep` in `s`. -/
def replaceAll (toks : List Tok) (rep : List Str → Str) (s : Str) : Str :=
  replaceAllAux toks rep s.length none s

/-- Helper: a literal word as a token sequence. -/
def litsOf : Str → List Tok
  | [] => []
  | c :: t => .lit c :: litsOf t

/-- JS `String.prototype.split('\n')`. -/
def splitNL : Str → List Str
  | [] => [[]]
  | c :: t =>
      if c = '\n' then [] :: splitNL t
      else
        match splitNL t with
        | h :: r => (c :: h) :: r
        | [] => [[c]]

/-- `Array.prototype.join('\n')`. -/
def joinNL : List Str → Str
  | [] => []
  | [l] => l
  | l :: r => l ++ '\n' :: joinNL r

/-- JS `'  '.repeat(k)`-style repetition. -/
def repeatStr (s : Str) : Nat → Str
  | 0 => []
  | k + 1 => s ++ repeatStr s k

/-- JS `String.prototype.trim` (ASCII whitespace scope). -/
def trimStr (s : Str) : Str :=
  ((s.dropWhile (fun c => wsChar c)).reverse.dropWhile (fun c => wsChar c)).reverse

/-! ## The fix-rule engine (`fixLogicalErrors`, source lines 18-49) -/

/-- Pattern of `/n\s*%\s*2\s*!=\s*0/g`. -/
def patParityNeq : List Tok :=
  [.lit 'n', .star wsChar, .lit '%', .star wsChar, .lit '2', .star wsChar,
   .lit '!', .lit '=', .star wsChar, .lit '0']

/-- Pattern of `/n\s*%\s*2\s*!==\s*0/g`. -/
def patParityNeqStrict : List Tok :=
  [.lit 'n', .star wsChar, .lit '%', .star wsChar, .lit '2', .star wsChar,
   .lit '!', .lit '=', .lit '=', .star wsChar, .lit '0']

/-- Pattern of `/for\s*\(\s*\w+\s*=\s*0;\s*\w+\s*<\s*(\w+)\.length\s*-\s*1/g`. -/
def patForOffByOne : List Tok :=
  litsOf (str ("for")) ++
  [.star wsChar, .lit '(', .star wsChar, .plus wordChar, .star wsChar, .lit '=',
   .star wsChar, .lit '0', .lit ';', .star wsChar, .plus wordChar, .star wsChar,
   .lit '<', .star wsChar, .openG, .plus wordChar, .closeG] ++
  litsOf (str (".length")) ++ [.star wsChar, .lit '-', .star wsChar, .lit '1']

/-- Pattern of `/\[\s*(\w+)\.length\s*\]/g`. -/
def patArrBound : List Tok :=
  [.lit '[', .star wsChar, .openG, .plus wordChar, .closeG] ++
  litsOf (str (".length")) ++ [.star wsChar, .lit ']']

/-- Pattern of `/&&\s*true/g`. -/
def patAndTrue : List Tok := [.lit '&', .lit '&', .star wsChar] ++ litsOf (str ("true"))

/-- Pattern of `/\|\|\s*false/g`. -/
def patOrFalse : List Tok := [.lit '|', .lit '|', .star wsChar] ++ litsOf (str ("false"))

/-- One entry of the `errorPatterns` table: the compiled pattern, the
replacement as a function of the captures, the literal replacement
template string (used by the source for the comment-insertion search),
and the explanatory comment. -/
structure FixRule where
  pattern : List Tok
  repF : List Str → Str
  replacement : Str
  comment : Str

/-- The static ordered `errorPatterns` table (source lines 22-36). -/
def errorPatterns : List FixRule :=
  [ { pattern := patParityNeq, repF := fun _ => str ("n % 2 == 0"),
      replacement := str ("n % 2 == 0"),
      comment := str ("Fixed: even numbers have remainder 0") },
    { pattern := patParityNeqStrict, repF := fun _ => str ("n % 2 === 0"),
      replacement := str ("n % 2 === 0"),
      comment := str ("Fixed: even numbers have remainder 0") },
    { pattern := patForOffByOne,
      repF := fun cs => str ("for (let i = 0; i < ") ++ cs.getD 0 [] ++ str (".length"),
      replacement := str ("for (let i = 0; i < $1.length"),
      comment := str ("Fixed: off-by-one error") },
    { pattern := patArrBound,
      repF := fun cs => str ("[") ++ cs.getD 0 [] ++ str (".length - 1]"),
      replacement := str ("[$1.length - 1]"),
      comment := str ("Fixed: array index out of bounds") },
    { pattern := patAndTrue, repF := fun _ => [], replacement := [],
      comment := str ("Simplified: && true is redundant") },
    { pattern := patOrFalse, repF := fun _ => [], replacement := [],
      comment := str ("Simplified: || false is redundant") } ]

/-- Body of the `errorPatterns.forEach` callback (source lines 38-46):
if the pattern occurs, replace all occurrences, then add the comment
after the first occurrence of the literal replacement template unless
the comment text is already present. -/
def applyFixRule (fixedCode : Str) (r : FixRule) : Str :=
  if testPat r.pattern fixedCode then
    let replaced := replaceAll r.pattern r.repF fixedCode
    if hasSub replaced r.comment then replaced
    else replaceStr r.replacement (r.replacement ++ str ("  // ") ++ r.comment) replaced
  else fixedCode

/-- `fixLogicalErrors` (source lines 18-49).  The `language` argument
is accepted and ignored, as in the source. -/
def fixLogicalErrors (code : Str) (_language : Str) : Str :=
  List.foldl applyFixRule code errorPatterns

/-! ## Patterns shared by the pairwise converters -/

/-- `/def\s+(\w+)\s*\((.*?)\):/g`. -/
def patDefHdr : List Tok :=
  litsOf (str ("def")) ++
  [.plus wsChar, .openG, .plus wordChar, .closeG, .star wsChar, .lit '(',
   .openG, .lazyStar dotChar, .closeG, .lit ')', .lit ':']

/-- `/return\s+(.+)/g`. -/
def patReturn : List Tok :=
  litsOf (str ("return")) ++ [.plus wsChar, .openG, .plus dotChar, .closeG]

/-- `/return\s+(.+);/g`. -/
def patReturnSemi : List Tok :=
  litsOf (str ("return")) ++ [.plus wsChar, .openG, .plus dotChar, .closeG, .lit ';']

/-- `/\bTrue\b/g`. -/
def patTrue : List Tok := [.bdry] ++ litsOf (str ("True")) ++ [.bdry]

/-- `/\bFalse\b/g`. -/
def patFalse : List Tok := [.bdry] ++ litsOf (str ("False")) ++ [.bdry]

/-- `/\bNone\b/g`. -/
def patNone : List Tok := [.bdry] ++ litsOf (str ("None")) ++ [.bdry]

/-- `/\btrue\b/g`. -/
def patTrueLow : List Tok := [.bdry] ++ litsOf (str ("true")) ++ [.bdry]

/-- `/\bfalse\b/g`. -/
def patFalseLow : List Tok := [.bdry] ++ litsOf (str ("false")) ++ [.bdry]

/-- `/\bnull\b/g`. -/
def patNullLow : List Tok := [.bdry] ++ litsOf (str ("null")) ++ [.bdry]

/-- `/elif/g`. -/
def patElif : List Tok := litsOf (str ("elif"))

/-- `/:\s*$/gm`. -/
def patColonEOL : List Tok := [.lit ':', .star wsChar, .eol]

/-- `/;$/gm`. -/
def patSemiEOL : List Tok := [.lit ';', .eol]

/-- `/}/g`. -/
def patRBrace : List Tok := [.lit rbrace]

/-- `/print\s*\((.*?)\)/g`. -/
def patPrint : List Tok :=
  litsOf (str ("print")) ++
  [.star wsChar, .lit '(', .openG, .lazyStar dotChar, .closeG, .lit ')']

/-- `/f"([^"]*\{[^}]*\}[^"]*)"/g`. -/
def patFString : List Tok :=
  [.lit 'f', .lit '"', .openG, .star (fun c => !(c = '"')), .lit lbrace,
   .star (fun c => !(c = rbrace)), .lit rbrace, .star (fun c => !(c = '"')),
   .closeG, .lit '"']

/-- `/\{(\w+)\}/g`. -/
def patBraceInterp : List Tok :=
  [.lit lbrace, .openG, .plus wordChar, .closeG, .lit rbrace]

/-- `/function\s+(\w+)\s*\(([^)]*)\)/g` (the heuristic type-annotation header). -/
def patFuncHdrParen : List Tok :=
  litsOf (str ("function")) ++
  [.plus wsChar, .openG, .plus wordChar, .closeG, .star wsChar, .lit '(',
   .openG, .star (fun c => !(c = ')')), .closeG, .lit ')']

/-- `/function\s+(\w+)\s*\((.*?)\)\s*{/g`. -/
def patFunctionHdrBrace : List Tok :=
  litsOf (str ("function")) ++
  [.plus wsChar, .openG, .plus wordChar, .closeG, .star wsChar, .lit '(',
   .openG, .lazyStar dotChar, .closeG, .lit ')', .star wsChar, .lit lbrace]

/-- `/(\w+)/g`, used on parameter lists by the annotation callbacks. -/
def patWordG : List Tok := [.openG, .plus wordChar, .closeG]

/-- `params.replace(/(\w+)/g, '$1' + suffix)`. -/
def typedParamsSuf (suffix params : Str) : Str :=
  replaceAll patWordG (fun cs => cs.getD 0 [] ++ suffix) params

/-- `params.replace(/(\w+)/g, pre + '$1')`. -/
def typedParamsPre (pre params : Str) : Str :=
  replaceAll patWordG (fun cs => pre ++ cs.getD 0 []) params

/-! ## `convertPythonToJavaScript` (source lines 76-125) -/

/-- The regex-rewrite phase of `convertPythonToJavaScript` (the chained
`.replace` calls, source lines 77-95), in source order. -/
def pyJsReplaced (code : Str) : Str :=
  let s1 := replaceAll patParityNeq (fun _ => str ("n % 2 === 0")) code
  let s2 := replaceAll patDefHdr
    (fun cs => str ("function ") ++ cs.getD 0 [] ++ str ("(") ++ cs.getD 1 [] ++ str (") \x7b")) s1
  let s3 := replaceAll patReturn
    (fun cs => str ("  return ") ++ cs.getD 0 [] ++ str (";")) s2
  let s4 := replaceAll patTrue (fun _ => str ("true")) s3
  let s5 := replaceAll patFalse (fun _ => str ("false")) s4
  let s6 := replaceAll patNone (fun _ => str ("null")) s5
  let s7 := replaceAll patElif (fun _ => str ("else if")) s6
  let s8 := replaceAll patColonEOL (fun _ => str (" \x7b")) s7
  let s9 := replaceAll patPrint
    (fun cs => str ("console.log(") ++ cs.getD 0 [] ++ str (")")) s8
  let s10 := replaceAll patFString (fun cs => [btick] ++ cs.getD 0 [] ++ [btick]) s9
  replaceAll patBraceInterp
    (fun cs => str ("$") ++ [lbrace] ++ cs.getD 0 [] ++ [rbrace]) s10

/-- `'  '.repeat(k)`. -/
def indentSp (k : Nat) : Str := repeatStr (str ("  ")) k

/-- The line-reconstruction loop of `convertPythonToJavaScript`
(source lines 98-116): walk the lines, skip blank ones, push each
non-blank line trimmed and re-indented, and bump the brace/indent
counters on lines that contain an opening brace.  Returns the pushed
lines and the final `braceCount` and `indentLevel`.  (The source's
three `if` branches push identically; the branch structure is kept.) -/
def buildLines : List Str → Nat → Nat → List Str × Nat × Nat
  | [], bc, il => ([], bc, il)
  | line :: rest, bc, il =>
      let trimmed := trimStr line
      if trimmed ≠ [] then
        if hasSub line [lbrace] then
          let r := buildLines rest (bc + 1) (il + 1)
          ((indentSp il ++ trimmed) :: r.1, r.2)
        else if startsW (str ("return")) trimmed || startsW (str ("console.log")) trimmed then
          let r := buildLines rest bc il
          ((indentSp il ++ trimmed) :: r.1, r.2)
        else
          let r := buildLines rest bc il
          ((indentSp il ++ trimmed) :: r.1, r.2)
      else buildLines rest bc il

/-- The closing-brace loop (source lines 119-122): emit `braceCount`
closing braces, decrementing the indent level before each. -/
def closingBraces : Nat → Nat → List Str
  | 0, _ => []
  | k + 1, il => (indentSp (il - 1) ++ [rbrace]) :: closingBraces k (il - 1)

/-- `convertPythonToJavaScript` (source lines 76-125). -/
def convertPythonToJavaScript (code : Str) : Str :=
  let lines := splitNL (pyJsReplaced code)
  let b := buildLines lines 0 0
  joinNL (b.1 ++ closingBraces b.2.1 b.2.2)

/-! ## `convertPythonToTypeScript` (source lines 127-148) -/

/-- The type-annotation callback of `convertPythonToTypeScript`
(source lines 132-145). -/
def tsAnnotateRepPy (cs : List Str) : Str :=
  let funcName := cs.getD 0 []
  let params := cs.getD 1 []
  if hasSub funcName (str ("even")) || hasSub funcName (str ("odd")) then
    str ("function ") ++ funcName ++ str ("(") ++
      typedParamsSuf (str (": number")) params ++ str ("): boolean")
  else if hasSub funcName (str ("add")) || hasSub funcName (str ("sum")) ||
      hasSub funcName (str ("multiply")) then
    str ("function ") ++ funcName ++ str ("(") ++
      typedParamsSuf (str (": number")) params ++ str ("): number")
  else
    str ("function ") ++ funcName ++ str ("(") ++
      typedParamsSuf (str (": any")) params ++ str ("): any")

/-- `convertPythonToTypeScript` (source lines 127-148). -/
def convertPythonToTypeScript (code : Str) : Str :=
  replaceAll patFuncHdrParen tsAnnotateRepPy (convertPythonToJavaScript code)

/-! ## `convertPythonToJava` (source lines 150-190) -/

/-- The method-header callback of `convertPythonToJava` (source lines 155-166). -/
def javaDefRep (cs : List Str) : Str :=
  let funcName := cs.getD 0 []
  let params := cs.getD 1 []
  if hasSub funcName (str ("even")) || hasSub funcName (str ("odd")) then
    str ("    public static boolean ") ++ funcName ++ str ("(") ++
      typedParamsPre (str ("int ")) params ++ str (") \x7b")
  else if hasSub funcName (str ("add")) || hasSub funcName (str ("sum")) then
    str ("    public static int ") ++ funcName ++ str ("(") ++
      typedParamsPre (str ("int ")) params ++ str (") \x7b")
  else
    str ("    public static Object ") ++ funcName ++ str ("(") ++
      typedParamsPre (str ("Object ")) params ++ str (") \x7b")

/-- `/print\s*\((.*?)\)/g` rewritten to `System.out.println($1)`. -/
def javaPrintRep (cs : List Str) : Str :=
  str ("System.out.println(") ++ cs.getD 0 [] ++ str (")")

/-- `convertPythonToJava` (source lines 150-190). -/
def convertPythonToJava (code : Str) : Str :=
  let s1 := replaceAll patParityNeq (fun _ => str ("n % 2 == 0")) code
  let s2 := replaceAll patDefHdr javaDefRep s1
  let s3 := replaceAll patReturn
    (fun cs => str ("        return ") ++ cs.getD 0 [] ++ str (";")) s2
  let s4 := replaceAll patTrue (fun _ => str ("true")) s3
  let s5 := replaceAll patFalse (fun _ => str ("false")) s4
  let s6 := replaceAll patNone (fun _ => str ("null")) s5
  let converted := replaceAll patPrint javaPrintRep s6
  str ("public class CodeConverter \x7b\n") ++ converted ++
  str ("\n    \x7d\n\n    public static void main(String[] args) \x7b\n        // Test the converted function\n        System.out.println(\"Testing converted function:\");\n        // Add test calls here\n    \x7d\n\x7d")

/-! ## `convertPythonToCpp` (source lines 192-233) -/

/-- The function-header callback of `convertPythonToCpp` (source lines 197-208). -/
def cppDefRep (cs : List Str) : Str :=
  let funcName := cs.getD 0 []
  let params := cs.getD 1 []
  if hasSub funcName (str ("even")) || hasSub funcName (str ("odd")) then
    str ("bool ") ++ funcName ++ str ("(") ++
      typedParamsPre (str ("int ")) params ++ str (") \x7b")
  else if hasSub funcName (str ("add")) || hasSub funcName (str ("sum")) then
    str ("int ") ++ funcName ++ str ("(") ++
      typedParamsPre (str ("int ")) params ++ str (") \x7b")
  else
    str ("auto ") ++ funcName ++ str ("(") ++
      typedParamsPre (str ("auto ")) params ++ str (") \x7b")

/-- `convertPythonToCpp` (source lines 192-233). -/
def convertPythonToCpp (code : Str) : Str :=
  let s1 := replaceAll patParityNeq (fun _ => str ("n % 2 == 0")) code
  let s2 := replaceAll patDefHdr cppDefRep s1
  let s3 := replaceAll patReturn
    (fun cs => str ("    return ") ++ cs.getD 0 [] ++ str (";")) s2
  let s4 := replaceAll patTrue (fun _ => str ("true")) s3
  let s5 := replaceAll patFalse (fun _ => str ("false")) s4
  let converted := replaceAll patPrint
    (fun cs => str ("cout << ") ++ cs.getD 0 [] ++ str (" << endl")) s5
  str ("#include <iostream>\nusing namespace std;\n\n") ++ converted ++
  str ("\n\x7d\n\nint main() \x7b\n    cout << boolalpha;\n    // Test the converted function\n    cout << \"Testing converted function:\" << endl;\n    // Add test calls here\n    return 0;\n\x7d")

/-! ## `convertJavaScriptToPython` (source lines 235-257) -/

/-- `/(?:const|let|var)\s+(\w+)\s*=\s*(.+);/g`. -/
def patVarDecl : List Tok :=
  [.altLits [str ("const"), str ("let"), str ("var")], .plus wsChar,
   .openG, .plus wordChar, .closeG, .star wsChar, .lit '=', .star wsChar,
   .openG, .plus dotChar, .closeG, .lit ';']

/-- `/console\.log\s*\((.*?)\)/g`. -/
def patConsoleLog : List Tok :=
  litsOf (str ("console")) ++ [.lit '.'] ++ litsOf (str ("log")) ++
  [.star wsChar, .lit '(', .openG, .lazyStar dotChar, .closeG, .lit ')']

/-- The template-literal pattern (backtick-delimited, with a dollar
interpolation inside the capture). -/
def patTemplateLit : List Tok :=
  [.lit btick, .openG, .star (fun c => !(c = btick)), .lit '$', .lit lbrace,
   .star (fun c => !(c = rbrace)), .lit rbrace, .star (fun c => !(c = btick)),
   .closeG, .lit btick]

/-- `/\$\{(\w+)\}/g`. -/
def patDollarInterp : List Tok :=
  [.lit '$', .lit lbrace, .openG, .plus wordChar, .closeG, .lit rbrace]

/-- `convertJavaScriptToPython` (source lines 235-257). -/
def convertJavaScriptToPython (code : Str) : Str :=
  let s1 := replaceAll patParityNeqStrict (fun _ => str ("n % 2 == 0")) code
  let s2 := replaceAll patFunctionHdrBrace
    (fun cs => str ("def ") ++ cs.getD 0 [] ++ str ("(") ++ cs.getD 1 [] ++ str ("):")) s1
  let s3 := replaceAll patVarDecl
    (fun cs => cs.getD 0 [] ++ str (" = ") ++ cs.getD 1 []) s2
  let s4 := replaceAll patReturnSemi
    (fun cs => str ("return ") ++ cs.getD 0 []) s3
  let s5 := replaceAll patTrueLow (fun _ => str ("True")) s4
  let s6 := replaceAll patFalseLow (fun _ => str ("False")) s5
  let s7 := replaceAll patNullLow (fun _ => str ("None")) s6
  let s8 := replaceAll patConsoleLog
    (fun cs => str ("print(") ++ cs.getD 0 [] ++ str (")")) s7
  let s9 := replaceAll patRBrace (fun _ => []) s8
  let s10 := replaceAll patSemiEOL (fun _ => []) s9
  let s11 := replaceAll patTemplateLit
    (fun cs => str ("f\"") ++ cs.getD 0 [] ++ str ("\"")) s10
  replaceAll patDollarInterp
    (fun cs => [lbrace] ++ cs.getD 0 [] ++ [rbrace]) s11

/-! ## `convertJavaScriptToTypeScript` (source lines 259-278) -/

/-- The annotation callback of `convertJavaScriptToTypeScript`
(source lines 262-273); unlike the python variant it does not treat
`multiply` names specially. -/
def tsAnnotateRepJs (cs : List Str) : Str :=
  let funcName := cs.getD 0 []
  let params := cs.getD 1 []
  if hasSub funcName (str ("even")) || hasSub funcName (str ("odd")) then
    str ("function ") ++ funcName ++ str ("(") ++
      typedParamsSuf (str (": number")) params ++ str ("): boolean")
  else if hasSub funcName (str ("add")) || hasSub funcName (str ("sum")) then
    str ("function ") ++ funcName ++ str ("(") ++
      typedParamsSuf (str (": number")) params ++ str ("): number")
  else
    str ("function ") ++ funcName ++ str ("(") ++
      typedParamsSuf (str (": any")) params ++ str ("): any")

/-- `/(?:const|let)\s+(\w+)\s*=\s*(\d+)/g`. -/
def patConstNum : List Tok :=
  [.altLits [str ("const"), str ("let")], .plus wsChar,
   .openG, .plus wordChar, .closeG, .star wsChar, .lit '=', .star wsChar,
   .openG, .plus digitChar, .closeG]

/-- `/(?:const|let)\s+(\w+)\s*=\s*(true|false)/g`. -/
def patConstBool : List Tok :=
  [.altLits [str ("const"), str ("let")], .plus wsChar,
   .openG, .plus wordChar, .closeG, .star wsChar, .lit '=', .star wsChar,
   .openG, .altLits [str ("true"), str ("false")], .closeG]

/-- `/(?:const|let)\s+(\w+)\s*=\s*"([^"]*)"/g`. -/
def patConstStr : List Tok :=
  [.altLits [str ("const"), str ("let")], .plus wsChar,
   .openG, .plus wordChar, .closeG, .star wsChar, .lit '=', .star wsChar,
   .lit '"', .openG, .star (fun c => !(c = '"')), .closeG, .lit '"']

/-- `convertJavaScriptToTypeScript` (source lines 259-278). -/
def convertJavaScriptToTypeScript (code : Str) : Str :=
  let s1 := replaceAll patFuncHdrParen tsAnnotateRepJs code
  let s2 := replaceAll patConstNum
    (fun cs => str ("const ") ++ cs.getD 0 [] ++ str (": number = ") ++ cs.getD 1 []) s1
  let s3 := replaceAll patConstBool
    (fun cs => str ("const ") ++ cs.getD 0 [] ++ str (": boolean = ") ++ cs.getD 1 []) s2
  replaceAll patConstStr
    (fun cs => str ("const ") ++ cs.getD 0 [] ++ str (": string = \"") ++ cs.getD 1 [] ++ str ("\"")) s3

/-! ## `convertJavaToPython` (source lines 280-300) -/

/-- `/public\s+class\s+\w+\s*{[\s\S]*?public\s+static\s+/g`. -/
def patClassStrip : List Tok :=
  litsOf (str ("public")) ++ [.plus wsChar] ++ litsOf (str ("class")) ++
  [.plus wsChar, .plus wordChar, .star wsChar, .lit lbrace, .lazyStar anyChar] ++
  litsOf (str ("public")) ++ [.plus wsChar] ++ litsOf (str ("static")) ++ [.plus wsChar]

/-- `/public\s+static\s+(boolean|int|void|String)\s+(\w+)\s*\((.*?)\)\s*{/g`. -/
def patPsDecl : List Tok :=
  litsOf (str ("public")) ++ [.plus wsChar] ++ litsOf (str ("static")) ++
  [.plus wsChar, .openG,
   .altLits [str ("boolean"), str ("int"), str ("void"), str ("String")], .closeG,
   .plus wsChar, .openG, .plus wordChar, .closeG, .star wsChar, .lit '(',
   .openG, .lazyStar dotChar, .closeG, .lit ')', .star wsChar, .lit lbrace]

/-- `/int\s+(\w+)/g`. -/
def patIntParam : List Tok :=
  litsOf (str ("int")) ++ [.plus wsChar, .openG, .plus wordChar, .closeG]

/-- `/boolean\s+(\w+)/g`. -/
def patBooleanParam : List Tok :=
  litsOf (str ("boolean")) ++ [.plus wsChar, .openG, .plus wordChar, .closeG]

/-- `/String\s+(\w+)/g`. -/
def patStringParam : List Tok :=
  litsOf (str ("String")) ++ [.plus wsChar, .openG, .plus wordChar, .closeG]

/-- `/System\.out\.println\s*\((.*?)\)/g`. -/
def patPrintln : List Tok :=
  litsOf (str ("System")) ++ [.lit '.'] ++ litsOf (str ("out")) ++ [.lit '.'] ++
  litsOf (str ("println")) ++
  [.star wsChar, .lit '(', .openG, .lazyStar dotChar, .closeG, .lit ')']

/-- `convertJavaToPython` (source lines 280-300). -/
def convertJavaToPython (code : Str) : Str :=
  let s1 := replaceAll patClassStrip (fun _ => []) code
  let s2 := replaceAll patPsDecl
    (fun cs => str ("def ") ++ cs.getD 1 [] ++ str ("(") ++ cs.getD 2 [] ++ str ("):")) s1
  let s3 := replaceAll patIntParam (fun cs => cs.getD 0 []) s2
  let s4 := replaceAll patBooleanParam (fun cs => cs.getD 0 []) s3
  let s5 := replaceAll patStringParam (fun cs => cs.getD 0 []) s4
  let s6 := replaceAll patReturnSemi (fun cs => str ("return ") ++ cs.getD 0 []) s5
  let s7 := replaceAll patTrueLow (fun _ => str ("True")) s6
  let s8 := replaceAll patFalseLow (fun _ => str ("False")) s7
  let s9 := replaceAll patNullLow (fun _ => str ("None")) s8
  let s10 := replaceAll patPrintln
    (fun cs => str ("print(") ++ cs.getD 0 [] ++ str (")")) s9
  let s11 := replaceAll patRBrace (fun _ => []) s10
  replaceAll patSemiEOL (fun _ => []) s11

/-! ## `convertCppToPython` (source lines 302-323) -/

/-- `/#include\s*<.*?>/g`. -/
def patInclude : List Tok :=
  [.lit '#'] ++ litsOf (str ("include")) ++
  [.star wsChar, .lit '<', .lazyStar dotChar, .lit '>']

/-- `/using\s+namespace\s+std;/g`. -/
def patUsingNS : List Tok :=
  litsOf (str ("using")) ++ [.plus wsChar] ++ litsOf (str ("namespace")) ++
  [.plus wsChar] ++ litsOf (str ("std")) ++ [.lit ';']

/-- `/(bool|int|void|auto)\s+(\w+)\s*\((.*?)\)\s*{/g`. -/
def patCppFunc : List Tok :=
  [.openG, .altLits [str ("bool"), str ("int"), str ("void"), str ("auto")], .closeG,
   .plus wsChar, .openG, .plus wordChar, .closeG, .star wsChar, .lit '(',
   .openG, .lazyStar dotChar, .closeG, .lit ')', .star wsChar, .lit lbrace]

/-- `/bool\s+(\w+)/g`. -/
def patBoolParam : List Tok :=
  litsOf (str ("bool")) ++ [.plus wsChar, .openG, .plus wordChar, .closeG]

/-- `/auto\s+(\w+)/g`. -/
def patAutoParam : List Tok :=
  litsOf (str ("auto")) ++ [.plus wsChar, .openG, .plus wordChar, .closeG]

/-- `/cout\s*<<\s*(.*?)\s*<<\s*endl/g`. -/
def patCout : List Tok :=
  litsOf (str ("cout")) ++
  [.star wsChar, .lit '<', .lit '<', .star wsChar, .openG, .lazyStar dotChar, .closeG,
   .star wsChar, .lit '<', .lit '<', .star wsChar] ++ litsOf (str ("endl"))

/-- `convertCppToPython` (source lines 302-323). -/
def convertCppToPython (code : Str) : Str :=
  let s1 := replaceAll patInclude (fun _ => []) code
  let s2 := replaceAll patUsingNS (fun _ => []) s1
  let s3 := replaceAll patCppFunc
    (fun cs => str ("def ") ++ cs.getD 1 [] ++ str ("(") ++ cs.getD 2 [] ++ str ("):")) s2
  let s4 := replaceAll patIntParam (fun cs => cs.getD 0 []) s3
  let s5 := replaceAll patBoolParam (fun cs => cs.getD 0 []) s4
  let s6 := replaceAll patAutoParam (fun cs => cs.getD 0 []) s5
  let s7 := replaceAll patReturnSemi (fun cs => str ("return ") ++ cs.getD 0 []) s6
  let s8 := replaceAll patTrueLow (fun _ => str ("True")) s7
  let s9 := replaceAll patFalseLow (fun _ => str ("False")) s8
  let s10 := replaceAll patCout
    (fun cs => str ("print(") ++ cs.getD 0 [] ++ str (")")) s9
  let s11 := replaceAll patRBrace (fun _ => []) s10
  replaceAll patSemiEOL (fun _ => []) s11

/-! ## Template fallback and dispatch (source lines 51-74, 325-369) -/

/-- `getLanguageTemplate` (source lines 340-369). -/
def getLanguageTemplate (language : Str) : Str :=
  if language = str ("javascript") then
    str ("function convertedFunction() \x7b\n    // Implement your logic here\n    return null;\n\x7d")
  else if language = str ("python") then
    str ("def converted_function():\n    # Implement your logic here\n    return None")
  else if language = str ("java") then
    str ("public class ConvertedCode \x7b\n    public static Object convertedFunction() \x7b\n        // Implement your logic here\n        return null;\n    \x7d\n\x7d")
  else if language = str ("cpp") then
    str ("#include <iostream>\nusing namespace std;\n\nauto convertedFunction() \x7b\n    // Implement your logic here\n    return nullptr;\n\x7d")
  else
    str ("// Implement your converted logic here")

/-- The block-comment body of the scaffold: every source line prefixed
with ` * ` and re-joined (source line 330). -/
def commentBlock (code : Str) : Str :=
  joinNL ((splitNL code).map (fun line => str (" * ") ++ line))

/-- `generateConversionTemplate` (source lines 325-338). -/
def generateConversionTemplate (code source target : Str) : Str :=
  str ("// Converted from ") ++ source ++ str (" to ") ++ target ++
  str ("\n// Note: This conversion may require manual adjustment\n\n/* Original ") ++
  source ++ str (" code:\n") ++ commentBlock code ++
  str ("\n */\n\n// TODO: Implement ") ++ target ++
  str (" equivalent\n// The conversion for ") ++ source ++ str (" -> ") ++ target ++
  str (" requires manual implementation\n// Please review the original code above and implement the equivalent logic in ") ++
  target ++ str ("\n\n") ++ getLanguageTemplate target

/-- `performLanguageConversion` (source lines 51-74). -/
def performLanguageConversion (code source target : Str) : Str :=
  let key := source ++ str ("-") ++ target
  if key = str ("python-javascript") then convertPythonToJavaScript code
  else if key = str ("python-typescript") then convertPythonToTypeScript code
  else if key = str ("python-java") then convertPythonToJava code
  else if key = str ("python-cpp") then convertPythonToCpp code
  else if key = str ("javascript-python") then convertJavaScriptToPython code
  else if key = str ("javascript-typescript") then convertJavaScriptToTypeScript code
  else if key = str ("java-python") then convertJavaToPython code
  else if key = str ("cpp-python") then convertCppToPython code
  else generateConversionTemplate code source target

/-- The two operating modes of `convertCode`. -/
inductive Mode where
  | convert
  | fix
deriving DecidableEq

/-- `convertCode` (source lines 2-16), with the artificial
`setTimeout` delay elided: it only postpones the promise resolution
and has no effect on the produced text. -/
def convertCode (code source target : Str) (mode : Mode) : Str :=
  if mode = Mode.fix then fixLogicalErrors code source
  else performLanguageConversion code source target

/-! ## `detectLanguage` (language detection module, lines 455-531) -/

/-- A `^`-anchored probe: the pattern must match at the start of the
(already trimmed) text. -/
def anchoredTest (toks : List Tok) (s : Str) : Bool := (matchPat toks none s).isSome

/-- An unanchored probe: `RegExp.prototype.test`. -/
def scanTest (toks : List Tok) (s : Str) : Bool := testPat toks s

/-- C++ signature set (source lines 459-465). -/
def cppProbe (t : Str) : Bool :=
  scanTest ([.lit '#'] ++ litsOf (str ("include")) ++ [.star wsChar, .lit '<']) t ||
  anchoredTest (litsOf (str ("int")) ++ [.plus wsChar] ++ litsOf (str ("main")) ++
    [.star wsChar, .lit '(']) t ||
  scanTest (litsOf (str ("std")) ++ [.lit ':', .lit ':', .plus wordChar]) t ||
  scanTest (litsOf (str ("cout")) ++ [.star wsChar, .lit '<', .lit '<']) t ||
  scanTest (litsOf (str ("using")) ++ [.plus wsChar] ++ litsOf (str ("namespace")) ++
    [.plus wsChar] ++ litsOf (str ("std"))) t

/-- Python signature set (source lines 470-476). -/
def pythonProbe (t : Str) : Bool :=
  anchoredTest (litsOf (str ("def")) ++ [.plus wsChar, .plus wordChar, .star wsChar, .lit '(']) t ||
  anchoredTest (litsOf (str ("class")) ++ [.plus wsChar, .plus wordChar]) t ||
  scanTest (litsOf (str ("import")) ++ [.plus wsChar, .plus wordChar]) t ||
  scanTest (litsOf (str ("from")) ++ [.plus wsChar, .plus wordChar, .plus wsChar] ++
    litsOf (str ("import"))) t ||
  scanTest (litsOf (str ("print")) ++ [.star wsChar, .lit '(']) t

/-- JavaScript/TypeScript signature set (source lines 481-489).  The
probe `/^export\s+(default\s+)?/` tests positively exactly when
`^export\s+` matches, since its trailing group is optional. -/
def jsProbe (t : Str) : Bool :=
  anchoredTest (litsOf (str ("function")) ++ [.plus wsChar, .plus wordChar, .star wsChar, .lit '(']) t ||
  anchoredTest (litsOf (str ("const")) ++ [.plus wsChar, .plus wordChar, .star wsChar, .lit '=']) t ||
  anchoredTest (litsOf (str ("let")) ++ [.plus wsChar, .plus wordChar, .star wsChar, .lit '=']) t ||
  anchoredTest (litsOf (str ("var")) ++ [.plus wsChar, .plus wordChar, .star wsChar, .lit '=']) t ||
  anchoredTest (litsOf (str ("export")) ++ [.plus wsChar]) t ||
  anchoredTest (litsOf (str ("import")) ++ [.plus wsChar, .star dotChar] ++ litsOf (str ("from"))) t ||
  scanTest (litsOf (str ("console")) ++ [.lit '.'] ++ litsOf (str ("log"))) t

/-- Java signature set (source lines 494-499). -/
def javaProbe (t : Str) : Bool :=
  anchoredTest (litsOf (str ("public")) ++ [.plus wsChar] ++ litsOf (str ("class")) ++
    [.plus wsChar, .plus wordChar]) t ||
  anchoredTest (litsOf (str ("public")) ++ [.plus wsChar] ++ litsOf (str ("static")) ++
    [.plus wsChar] ++ litsOf (str ("void")) ++ [.plus wsChar] ++ litsOf (str ("main"))) t ||
  anchoredTest (litsOf (str ("package")) ++ [.plus wsChar, .plus wordChar]) t ||
  scanTest (litsOf (str ("System")) ++ [.lit '.'] ++ litsOf (str ("out")) ++ [.lit '.'] ++
    litsOf (str ("println"))) t

/-- C# signature set (source lines 504-508). -/
def csharpProbe (t : Str) : Bool :=
  anchoredTest (litsOf (str ("using")) ++ [.plus wsChar] ++ litsOf (str ("System"))) t ||
  anchoredTest (litsOf (str ("namespace")) ++ [.plus wsChar, .plus wordChar]) t ||
  scanTest (litsOf (str ("Console")) ++ [.lit '.'] ++ litsOf (str ("WriteLine"))) t

/-- Go signature set (source lines 513-517). -/
def goProbe (t : Str) : Bool :=
  anchoredTest (litsOf (str ("package")) ++ [.plus wsChar] ++ litsOf (str ("main"))) t ||
  anchoredTest (litsOf (str ("func")) ++ [.plus wsChar, .plus wordChar]) t ||
  scanTest (litsOf (str ("fmt")) ++ [.lit '.'] ++ litsOf (str ("Print"))) t

/-- Rust signature set (source lines 522-526). -/
def rustProbe (t : Str) : Bool :=
  anchoredTest (litsOf (str ("fn")) ++ [.plus wsChar, .plus wordChar]) t ||
  scanTest (litsOf (str ("println")) ++ [.lit '!', .star wsChar, .lit '(']) t ||
  scanTest (litsOf (str ("let")) ++ [.plus wsChar] ++ litsOf (str ("mut")) ++ [.plus wsChar]) t

/-- `detectLanguage` (source lines 455-531). -/
def detectLanguage (code : Str) : Str :=
  let trimmedCode := trimStr code
  if cppProbe trimmedCode then str ("cpp")
  else if pythonProbe trimmedCode then str ("python")
  else if jsProbe trimmedCode then
    (if hasSub trimmedCode (str (": ")) && hasSub trimmedCode (str ("function")) then
      str ("typescript")
    else str ("javascript"))
  else if javaProbe trimmedCode then str ("java")
  else if csharpProbe trimmedCode then str ("csharp")
  else if goProbe trimmedCode then str ("go")
  else if rustProbe trimmedCode then str ("rust")
  else str ("plaintext")

/-! ## The test simulator (`runTestCases`, source lines 371-454)

The test cases arrive as parsed JSON (`any[]`), so a test case is an
arbitrary JavaScript value.  We model the value universe with integer
numbers plus an explicit NaN (the fractional doubles play no role in
any claim), and we model exactly the coercions the simulator's
arithmetic can trigger on this universe. -/

/-- JavaScript values as delivered by `JSON.parse`, plus `undefined`
and `NaN` which arise during evaluation. -/
inductive JSVal where
  | undef
  | null
  | bool (b : Bool)
  | num (n : Int)
  | nan
  | strV (s : Str)
  | arr (xs : List JSVal)
  | obj (fields : List (Str × JSVal))

/-- Property access `v.field`: throws a TypeError on `null` and
`undefined`, yields `undefined` for a missing field or a non-object
base (primitives are boxed and carry none of the accessed names). -/
def getField (v : JSVal) (f : Str) : Except Str JSVal :=
  match v with
  | .undef => .error (str ("Cannot read properties of undefined"))
  | .null => .error (str ("Cannot read properties of null"))
  | .obj fields =>
      match fields.find? (fun kv => kv.1 = f) with
      | some kv => .ok kv.2
      | none => .ok .undef
  | _ => .ok (.undef)

/-- Index access `v[0]`: throws on `null`/`undefined`, indexes arrays
and strings, and yields `undefined` otherwise. -/
def indexVal (v : JSVal) (i : Nat) : Except Str JSVal :=
  match v with
  | .undef => .error (str ("Cannot read properties of undefined"))
  | .null => .error (str ("Cannot read properties of null"))
  | .arr xs => .ok ((xs.getD i .undef))
  | .strV s => .ok (match s.get? i with | some c => .strV [c] | none => .undef)
  | _ => .ok (.undef)

/-- Array destructuring `const [a, b] = v`: throws a TypeError unless
`v` is iterable (an array or a string on this universe); missing
elements become `undefined`. -/
def destructure2 (v : JSVal) : Except Str (JSVal × JSVal) :=
  match v with
  | .arr xs => .ok (xs.getD 0 .undef, xs.getD 1 .undef)
  | .strV s =>
      .ok ((match s.get? 0 with | some c => .strV [c] | none => .undef),
           (match s.get? 1 with | some c => .strV [c] | none => .undef))
  | _ => .error (str ("value is not iterable"))

/-- Decimal rendering of an integer. -/
def intToStr (n : Int) : Str := str (toString n)

/-- Join with a separator (helper for array `ToString`). -/
def joinWith : List Str → Str → Str
  | [], _ => []
  | [l], _ => l
  | l :: r, sep => l ++ sep ++ joinWith r sep

/-- JS `ToString` on this universe (arrays join their elements with
commas, objects render as `[object Object]`). -/
def toJSString : JSVal → Str
  | .undef => str ("undefined")
  | .null => str ("null")
  | .bool b => if b then str ("true") else str ("false")
  | .num n => intToStr n
  | .nan => str ("NaN")
  | .strV s => s
  | .arr xs => joinWith (xs.attach.map (fun x => toJSString x.1)) [',']
  | .obj _ => str ("[object Object]")
decreasing_by have := List.sizeOf_lt_of_mem x.2; simp only [JSVal.arr.sizeOf_spec]; omega

/-- Parse an optionally signed decimal integer (the fragment of JS
string-to-number coercion needed here); `none` is NaN. -/
def parseIntS (s : Str) : Option Int :=
  let t := trimStr s
  let core : Str → Option Nat := fun ds =>
    if ds = [] then none
    else ds.foldl (fun acc c => match acc with
      | some a => if digitChar c then some (a * 10 + (c.toNat - 48)) else none
      | none => none) (some 0)
  if t = [] then some 0
  else match t with
    | '-' :: ds => (core ds).map (fun n => -(n : Int))
    | '+' :: ds => (core ds).map (fun n => (n : Int))
    | ds => (core ds).map (fun n => (n : Int))

/-- JS `ToNumber` on this universe; `none` is NaN. -/
def toNumber : JSVal → Option Int
  | .undef => none
  | .null => some 0
  | .bool b => some (if b then 1 else 0)
  | .num n => some n
  | .nan => none
  | .strV s => parseIntS s
  | .arr [] => some 0
  | .arr [x] => toNumber x
  | .arr (_ :: _ :: _) => none
  | .obj _ => none

/-- JS `%` (truncated remainder; NaN-propagating, NaN on division by zero). -/
def jsMod (a b : JSVal) : JSVal :=
  match toNumber a, toNumber b with
  | some x, some y => if y = 0 then .nan else .num (Int.tmod x y)
  | _, _ => .nan

/-- JS `+` on this universe: string context concatenates (arrays and
objects convert to their string form), otherwise numeric addition. -/
def jsAdd (a b : JSVal) : JSVal :=
  match a, b with
  | .strV _, _ => .strV (toJSString a ++ toJSString b)
  | _, .strV _ => .strV (toJSString a ++ toJSString b)
  | .arr _, _ => .strV (toJSString a ++ toJSString b)
  | _, .arr _ => .strV (toJSString a ++ toJSString b)
  | .obj _, _ => .strV (toJSString a ++ toJSString b)
  | _, .obj _ => .strV (toJSString a ++ toJSString b)
  | _, _ =>
      match toNumber a, toNumber b with
      | some x, some y => .num (x + y)
      | _, _ => .nan

/-- JS `*`. -/
def jsMul (a b : JSVal) : JSVal :=
  match toNumber a, toNumber b with
  | some x, some y => .num (x * y)
  | _, _ => .nan

mutual

/-- Structural equality on the value universe (used to realize strict
equality: the simulator only ever compares a freshly computed
primitive against the stored expectation, so reference semantics of
`===` on objects never becomes observable). -/
def jsvalBeq : JSVal → JSVal → Bool
  | .undef, .undef => true
  | .null, .null => true
  | .bool a, .bool b => a = b
  | .num a, .num b => a = b
  | .nan, .nan => true
  | .strV a, .strV b => a = b
  | .arr a, .arr b => jsvalBeqL a b
  | .obj a, .obj b => jsvalBeqF a b
  | _, _ => false

/-- Elementwise equality on value lists. -/
def jsvalBeqL : List JSVal → List JSVal → Bool
  | [], [] => true
  | a :: as', b :: bs' => jsvalBeq a b && jsvalBeqL as' bs'
  | _, _ => false

/-- Fieldwise equality on field lists. -/
def jsvalBeqF : List (Str × JSVal) → List (Str × JSVal) → Bool
  | [], [] => true
  | a :: as', b :: bs' => (a.1 = b.1 : Bool) && jsvalBeq a.2 b.2 && jsvalBeqF as' bs'
  | _, _ => false

end

/-- JS strict equality `===`: no coercion, NaN equals nothing. -/
def jsStrictEq (a b : JSVal) : Bool :=
  match a, b with
  | .nan, _ => false
  | _, .nan => false
  | _, _ => jsvalBeq a b

/-- `extractFunctionName` (source lines 438-454). -/
def extractFunctionName (code language : Str) : Str :=
  let pat : Option (List Tok) :=
    if language = str ("python") then
      some (litsOf (str ("def")) ++ [.plus wsChar, .openG, .plus wordChar, .closeG])
    else if language = str ("javascript") then
      some (litsOf (str ("function")) ++ [.plus wsChar, .openG, .plus wordChar, .closeG])
    else if language = str ("typescript") then
      some (litsOf (str ("function")) ++ [.plus wsChar, .openG, .plus wordChar, .closeG])
    else if language = str ("java") then
      some (litsOf (str ("public")) ++ [.plus wsChar] ++ litsOf (str ("static")) ++
        [.plus wsChar, .plus wordChar, .plus wsChar, .openG, .plus wordChar, .closeG])
    else if language = str ("cpp") then
      some [.plus wordChar, .plus wsChar, .openG, .plus wordChar, .closeG, .star wsChar, .lit '(']
    else none
  match pat with
  | some toks =>
      match firstCaps toks none code with
      | some caps => caps.getD 0 (str ("unknown"))
      | none => str ("unknown")
  | none => str ("unknown")

/-- The result record built for each test case. -/
structure TestResult where
  passed : Bool
  actual : JSVal
  expected : JSVal
  input : JSVal
  error : Option Str

/-- Build the result record shared by the three arithmetic categories
(source object literals at lines 387-392, 398-403, 409-414): the last
two property reads of the literal, then the record. -/
def categoryResult (testCase : JSVal) (actual : JSVal) : Except Str TestResult :=
  match getField testCase (str ("expected")) with
  | .error e => .error e
  | .ok expectedV =>
      match getField testCase (str ("input")) with
      | .error e => .error e
      | .ok inputV =>
          .ok { passed := jsStrictEq actual expectedV, actual := actual,
                expected := expectedV, input := inputV, error := none }

/-- The `try` block of the per-test-case callback (source lines
380-423), with every property access in source evaluation order; an
`error` result is a thrown exception. -/
def tryEval (code language : Str) (testCase : JSVal) : Except Str TestResult :=
  let functionName := extractFunctionName code language
  if hasSub functionName (str ("even")) || hasSub functionName (str ("Even")) then
    match getField testCase (str ("input")) with
    | .error e => .error e
    | .ok inputField =>
        match indexVal inputField 0 with
        | .error e => .error e
        | .ok input =>
            categoryResult testCase (JSVal.bool (jsStrictEq (jsMod input (.num 2)) (.num 0)))
  else if hasSub functionName (str ("add")) || hasSub functionName (str ("sum")) then
    match getField testCase (str ("input")) with
    | .error e => .error e
    | .ok inputField =>
        match destructure2 inputField with
        | .error e => .error e
        | .ok ab => categoryResult testCase (jsAdd ab.1 ab.2)
  else if hasSub functionName (str ("multiply")) then
    match getField testCase (str ("input")) with
    | .error e => .error e
    | .ok inputField =>
        match destructure2 inputField with
        | .error e => .error e
        | .ok ab => categoryResult testCase (jsMul ab.1 ab.2)
  else
    match getField testCase (str ("expected")) with
    | .error e => .error e
    | .ok expectedV =>
        match getField testCase (str ("expected")) with
        | .error e => .error e
        | .ok expectedV2 =>
            match getField testCase (str ("input")) with
            | .error e => .error e
            | .ok inputV =>
                .ok { passed := true, actual := expectedV, expected := expectedV2,
                      input := inputV, error := none }

/-- One test case through try and catch (source lines 379-432): a
thrown error is turned into a failure record, but building that record
reads `testCase.expected` and `testCase.input` again, which can itself
throw — that exception escapes the callback. -/
def runCase (code language : Str) (testCase : JSVal) : Except Str TestResult :=
  match tryEval code language testCase with
  | .ok r => .ok r
  | .error msg =>
      match getField testCase (str ("expected")) with
      | .error e => .error e
      | .ok expectedV =>
          match getField testCase (str ("input")) with
          | .error e => .error e
          | .ok inputV =>
              .ok { passed := false, actual := JSVal.null, expected := expectedV,
                    input := inputV, error := some msg }

/-- `runTestCases` (source lines 371-436), with the artificial delay
elided.  An exception escaping one callback aborts the whole `map` and
rejects the returned promise, which the `Except` propagation models. -/
def runTestCases (code language : Str) (testCases : List JSVal) :
    Except Str (List TestResult) :=
  testCases.mapM (runCase code language)

/-! ## Basic lemmas about substring search -/

theorem startsW_append_right (p x : Str) : startsW p (p ++ x) = true := by
  induction p with
  | nil => rfl
  | cons c ps ih => simp [startsW, ih]

theorem startsW_take (p : Str) : ∀ s : Str, startsW p s = true → s = p ++ s.drop p.length := by
  induction p with
  | nil => intro s _; simp
  | cons c ps ih =>
      intro s h
      cases s with
      | nil => simp [startsW] at h
      | cons d t =>
          simp only [startsW, Bool.and_eq_true, decide_eq_true_eq] at h
          obtain ⟨rfl, h2⟩ := h
          simpa [List.drop] using ih t h2

theorem splitFirst_eq (m : Str) :
    ∀ (s a b : Str), splitFirst m s = some (a, b) → s = a ++ m ++ b := by
  intro s
  induction s with
  | nil =>
      intro a b h
      simp only [splitFirst] at h
      by_cases hs : startsW m [] = true
      · cases m with
        | nil => simp_all [startsW]
        | cons c t => simp [startsW] at hs
      · simp [hs] at h
  | cons c t ih =>
      intro a b h
      simp only [splitFirst] at h
      by_cases hs : startsW m (c :: t) = true
      · simp only [hs, if_true, Option.some.injEq, Prod.mk.injEq] at h
        obtain ⟨rfl, rfl⟩ := h
        simpa using startsW_take m (c :: t) hs
      · simp only [hs, if_false, Option.map_eq_some', Bool.false_eq_true] at h
        obtain ⟨⟨a', b'⟩, hsp, hab⟩ := h
        cases hab
        simpa using congrArg (c :: ·) (ih a' b' hsp)

theorem hasSub_exists (s m : Str) (h : hasSub s m = true) : ∃ a b, s = a ++ (m ++ b) := by
  unfold hasSub at h
  obtain ⟨⟨a, b⟩, hsp⟩ := Option.isSome_iff_exists.mp h
  exact ⟨a, b, by simpa using splitFirst_eq m s a b hsp⟩

theorem hasSub_intro (m b : Str) : ∀ a : Str, hasSub (a ++ (m ++ b)) m = true := by
  intro a
  induction a with
  | nil =>
      show (splitFirst m (m ++ b)).isSome = true
      cases h : m ++ b with
      | nil =>
          rcases List.append_eq_nil.mp h with ⟨rfl, rfl⟩
          simp [splitFirst, startsW]
      | cons c t =>
          rw [splitFirst]
          have : startsW m (c :: t) = true := h ▸ startsW_append_right m b
          simp [this]
  | cons c a' ih =>
      show (splitFirst m (c :: (a' ++ (m ++ b)))).isSome = true
      rw [splitFirst]
      by_cases hs : startsW m (c :: (a' ++ (m ++ b))) = true
      · simp [hs]
      · simpa [hs, Option.isSome_map] using ih

theorem hasSub_of_eq_append (s a m b : Str) (h : s = a ++ (m ++ b)) : hasSub s m = true :=
  h ▸ hasSub_intro m b a

/-- Splitting on newlines is trivial for newline-free text. -/
theorem splitNL_no_newline : ∀ s : Str, '\n' ∉ s → splitNL s = [s] := by
  intro s
  induction s with
  | nil => intro _; rfl
  | cons c t ih =>
      intro h
      have hc : ¬(c = '\n') := fun hc => h (hc ▸ List.mem_cons_self c t)
      have ht : '\n' ∉ t := fun hm => h (List.mem_cons_of_mem c hm)
      simp [splitNL, hc, ih ht]

/-! ## Claim C6 -/

/-- Claim C6: converting the exact input `def is_even(n):\n    return n % 2 != 0`
from python to javascript yields `function is_even(n) {\n  return n % 2 === 0;\n}`,
whose count of opening braces equals its count of closing braces and
which contains the substring `=== ` where the inequality check was. -/
theorem pyToJs_isEven_balanced_strict :
    convertPythonToJavaScript (str ("def is_even(n):\n    return n % 2 != 0")) =
      str ("function is_even(n) \x7b\n  return n % 2 === 0;\n\x7d") ∧
    List.count lbrace (convertPythonToJavaScript (str ("def is_even(n):\n    return n % 2 != 0"))) =
      List.count rbrace (convertPythonToJavaScript (str ("def is_even(n):\n    return n % 2 != 0"))) ∧
    hasSub (convertPythonToJavaScript (str ("def is_even(n):\n    return n % 2 != 0")))
      (str ("=== ")) = true :=
  ⟨by decide, by decide, by decide⟩

/-! ## Claim C8 -/

/-- Claim C8: `convertCode` (in either mode) and `runTestCases` are
deterministic: runs on equal inputs produce equal results (the model
elides only the artificial delay, which the claim excludes). -/
theorem convertCode_runTestCases_deterministic
    (c c' s s' t t' : Str) (m m' : Mode) (code code' lang lang' : Str)
    (tcs tcs' : List JSVal)
    (hc : c = c') (hs : s = s') (ht : t = t') (hm : m = m')
    (hcode : code = code') (hlang : lang = lang') (htcs : tcs = tcs') :
    convertCode c s t m = convertCode c' s' t' m' ∧
    runTestCases code lang tcs = runTestCases code' lang' tcs' := by
  subst hc; subst hs; subst ht; subst hm; subst hcode; subst hlang; subst htcs
  exact ⟨rfl, rfl⟩

/-- Witness for C8 at concrete inputs. -/
theorem convertCode_runTestCases_deterministic_witness :
    convertCode (str ("x")) (str ("python")) (str ("javascript")) Mode.fix =
      convertCode (str ("x")) (str ("python")) (str ("javascript")) Mode.fix ∧
    runTestCases (str ("x")) (str ("python")) [] =
      runTestCases (str ("x")) (str ("python")) [] :=
  convertCode_runTestCases_deterministic _ _ _ _ _ _ Mode.fix Mode.fix _ _ _ _ [] []
    rfl rfl rfl rfl rfl rfl rfl

/-! ## Claim C9 -/

/-- Claim C9: whenever the trimmed input matches none of the
per-language signature predicate sets, `detectLanguage` returns the
sentinel `plaintext`. -/
theorem detectLanguage_plaintext (code : Str)
    (h1 : cppProbe (trimStr code) = false)
    (h2 : pythonProbe (trimStr code) = false)
    (h3 : jsProbe (trimStr code) = false)
    (h4 : javaProbe (trimStr code) = false)
    (h5 : csharpProbe (trimStr code) = false)
    (h6 : goProbe (trimStr code) = false)
    (h7 : rustProbe (trimStr code) = false) :
    detectLanguage code = str ("plaintext") := by
  simp [detectLanguage, h1, h2, h3, h4, h5, h6, h7]

/-- Witness for C9: the empty and the whitespace-only input are
detected as `plaintext`. -/
theorem detectLanguage_plaintext_witness :
    detectLanguage (str ("")) = str ("plaintext") ∧
    detectLanguage (str ("   ")) = str ("plaintext") :=
  ⟨detectLanguage_plaintext (str ("")) (by decide) (by decide) (by decide) (by decide)
      (by decide) (by decide) (by decide),
   detectLanguage_plaintext (str ("   ")) (by decide) (by decide) (by decide) (by decide)
      (by decide) (by decide) (by decide)⟩

/-! ## Claim C3 -/

/-- Counterexample to claim C3 as stated: for the two-line source
`a\nb` the scaffold does not contain the source text byte-for-byte
(each line is reproduced behind a ` * ` comment prefix). -/
theorem scaffold_not_verbatim_multiline :
    hasSub (generateConversionTemplate (str ("a\nb")) (str ("x")) (str ("y")))
      (str ("a\nb")) = false := by decide

/-- Claim C3 (amended): the scaffold contains the original source with
every line prefixed by ` * ` (the block-comment body), and a source
without newlines therefore appears verbatim; only the line-prefixed
form is guaranteed for multi-line sources. -/
theorem scaffold_contains_commented_source (code source target : Str) :
    hasSub (generateConversionTemplate code source target) (commentBlock code) = true ∧
    ('\n' ∉ code → hasSub (generateConversionTemplate code source target) code = true) := by
  constructor
  · apply hasSub_of_eq_append _
      (str ("// Converted from ") ++ source ++ str (" to ") ++ target ++
        str ("\n// Note: This conversion may require manual adjustment\n\n/* Original ") ++
        source ++ str (" code:\n"))
      (commentBlock code)
      (str ("\n */\n\n// TODO: Implement ") ++ target ++
        str (" equivalent\n// The conversion for ") ++ source ++ str (" -> ") ++ target ++
        str (" requires manual implementation\n// Please review the original code above and implement the equivalent logic in ") ++
        target ++ str ("\n\n") ++ getLanguageTemplate target)
    simp [generateConversionTemplate]
  · intro hnl
    apply hasSub_of_eq_append _
      (str ("// Converted from ") ++ source ++ str (" to ") ++ target ++
        str ("\n// Note: This conversion may require manual adjustment\n\n/* Original ") ++
        source ++ str (" code:\n") ++ str (" * "))
      code
      (str ("\n */\n\n// TODO: Implement ") ++ target ++
        str (" equivalent\n// The conversion for ") ++ source ++ str (" -> ") ++ target ++
        str (" requires manual implementation\n// Please review the original code above and implement the equivalent logic in ") ++
        target ++ str ("\n\n") ++ getLanguageTemplate target)
    have hcb : commentBlock code = str (" * ") ++ code := by
      simp [commentBlock, splitNL_no_newline code hnl, joinNL]
    simp [generateConversionTemplate, hcb]

/-- Witness for the conditional part of the amended C3. -/
theorem scaffold_contains_commented_source_witness :
    ('\n' ∉ str ("abc")) ∧
    hasSub (generateConversionTemplate (str ("abc")) (str ("x")) (str ("y"))) (str ("abc")) = true :=
  ⟨by decide,
   (scaffold_contains_commented_source (str ("abc")) (str ("x")) (str ("y"))).2 (by decide)⟩

/-! ## Counterexamples for claims C1, C2, C4, C5, C7 -/

/-- Counterexample to claim C1 as stated: this input contains
`n % 2 != 0`, yet the fix-mode output still contains `n % 2 != 0`:
the parity rule rewrites the first occurrence, but the later
`&&\s*true` deletion rule splices `n % 2 !` and `= 0` back together. -/
theorem fixLogicalErrors_reintroduces_parity_bug :
    hasSub (str ("n % 2 != 0 and n % 2 !&& true= 0")) (str ("n % 2 != 0")) = true ∧
    hasSub (fixLogicalErrors (str ("n % 2 != 0 and n % 2 !&& true= 0")) (str ("javascript")))
      (str ("n % 2 != 0")) = true :=
  ⟨by decide, by decide⟩

/-- Counterexample to claim C2 as stated: `java-python` is in the
supported pair set, yet its pipeline applies no parity correction — the
bug comparison survives the conversion verbatim. -/
theorem javaToPython_keeps_parity_bug :
    hasSub (str ("return n % 2 != 0;")) (str ("n % 2 != 0")) = true ∧
    hasSub (performLanguageConversion (str ("return n % 2 != 0;")) (str ("java")) (str ("python")))
      (str ("n % 2 != 0")) = true :=
  ⟨by decide, by decide⟩

/-- Counterexample to claim C4 as stated: on the one-element list
`[null]` the runner does not return a list at all — the catch handler
itself dereferences the null test case and the batch rejects. -/
theorem runTestCases_null_no_result_list :
    runTestCases (str ("x")) (str ("python")) [JSVal.null] =
      Except.error (str ("Cannot read properties of null")) := rfl

/-- Counterexample to claim C5 as stated: a thrown error on a null
test case is not confined to that case — the batch rejects and the
result of the following (well-formed) case is lost. -/
theorem runTestCases_null_aborts_batch :
    runTestCases (str ("def is_even(n):\n    return n % 2 == 0")) (str ("python"))
      [JSVal.null,
       JSVal.obj [(str ("input"), JSVal.arr [JSVal.num 2]),
                  (str ("expected"), JSVal.bool true)]] =
      Except.error (str ("Cannot read properties of null")) := rfl

/-- Counterexample to claim C7 as stated: the off-by-one rule fires
and rewrites the text, but its explanation is never attached — the
comment-insertion step searches for the literal template
`for (let i = 0; i < $1.length`, whose `$1` does not occur in the
replaced text. -/
theorem fixRule_offByOne_comment_missing :
    fixLogicalErrors (str ("for (i = 0; i < a.length - 1")) (str ("javascript")) =
      str ("for (let i = 0; i < a.length") ∧
    hasSub (fixLogicalErrors (str ("for (i = 0; i < a.length - 1")) (str ("javascript")))
      (str ("Fixed: off-by-one error")) = false :=
  ⟨by decide, by decide⟩

/-! ## Structural lemmas for the test simulator (claims C4 and C5) -/

/-- Is the value neither `null` nor `undefined` (so that property
access cannot throw)? -/
def nonNullish : JSVal → Bool
  | .null => false
  | .undef => false
  | _ => true

/-- The value of property `f` as JavaScript sees it on a non-nullish
base: the object's field, or `undefined`. -/
def fieldOf (v : JSVal) (f : Str) : JSVal :=
  match v with
  | .obj fields =>
      (match fields.find? (fun kv => kv.1 = f) with
       | some kv => kv.2
       | none => .undef)
  | _ => .undef

theorem getField_nonNullish (v : JSVal) (f : Str) (h : nonNullish v = true) :
    getField v f = .ok (fieldOf v f) := by
  cases v with
  | null => simp [nonNullish] at h
  | undef => simp [nonNullish] at h
  | obj fields =>
      cases hf : fields.find? (fun kv => kv.1 = f) <;> simp [getField, fieldOf, hf]
  | bool b => rfl
  | num n => rfl
  | nan => rfl
  | strV s => rfl
  | arr xs => rfl

/-- Inversion for a successful `try` block: the result record carries
the test case's `expected` and `input` properties. -/
theorem tryEval_ok_fields (code lang : Str) (tc : JSVal) (h : nonNullish tc = true)
    (r : TestResult) (htry : tryEval code lang tc = .ok r) :
    r.expected = fieldOf tc (str ("expected")) ∧ r.input = fieldOf tc (str ("input")) := by
  have hg : ∀ f, getField tc f = .ok (fieldOf tc f) := fun f => getField_nonNullish tc f h
  simp only [tryEval, categoryResult, hg] at htry
  split_ifs at htry <;> repeat split at htry
  all_goals cases htry
  all_goals exact ⟨rfl, rfl⟩

/-- On a non-nullish test case the try/catch callback always returns a
record; the record carries the case's own `expected`/`input` fields,
and when the `try` block threw, the error message with `passed = false`
and a null `actual`. -/
theorem runCase_nonNullish (code lang : Str) (tc : JSVal) (h : nonNullish tc = true) :
    ∃ r, runCase code lang tc = .ok r ∧
      r.expected = fieldOf tc (str ("expected")) ∧
      r.input = fieldOf tc (str ("input")) ∧
      (∀ e, tryEval code lang tc = .error e →
        r.passed = false ∧ r.actual = JSVal.null ∧ r.error = some e) := by
  have hg : ∀ f, getField tc f = .ok (fieldOf tc f) := fun f => getField_nonNullish tc f h
  cases htry : tryEval code lang tc with
  | ok r =>
      refine ⟨r, by simp [runCase, htry], ?_, ?_, ?_⟩
      · exact (tryEval_ok_fields code lang tc h r htry).1
      · exact (tryEval_ok_fields code lang tc h r htry).2
      · intro e he
        exact absurd he (by simp)
  | error msg =>
      refine ⟨{ passed := false, actual := JSVal.null,
                expected := fieldOf tc (str ("expected")),
                input := fieldOf tc (str ("input")), error := some msg }, ?_, rfl, rfl, ?_⟩
      · simp [runCase, htry, hg]
      · intro e he
        injection he with hme
        subst hme
        exact ⟨rfl, rfl, rfl⟩

/-- The per-case relation underlying the batch theorems. -/
def CaseOk (code lang : Str) (tc : JSVal) (r : TestResult) : Prop :=
  runCase code lang tc = .ok r ∧
  r.expected = fieldOf tc (str ("expected")) ∧
  r.input = fieldOf tc (str ("input")) ∧
  (∀ e, tryEval code lang tc = .error e →
    r.passed = false ∧ r.actual = JSVal.null ∧ r.error = some e)

theorem forall₂_caseOk (code lang : Str) :
    ∀ l : List JSVal, (∀ tc ∈ l, nonNullish tc = true) →
      ∃ rs, List.Forall₂ (CaseOk code lang) l rs := by
  intro l
  induction l with
  | nil => intro _; exact ⟨[], List.Forall₂.nil⟩
  | cons tc rest ih =>
      intro h
      obtain ⟨r, hr⟩ := runCase_nonNullish code lang tc (h tc (List.mem_cons_self tc rest))
      obtain ⟨rs, hrs⟩ := ih (fun x hx => h x (List.mem_cons_of_mem tc hx))
      exact ⟨r :: rs, List.Forall₂.cons hr hrs⟩

theorem runTestCases_of_forall₂ (code lang : Str) :
    ∀ (l : List JSVal) (rs : List TestResult),
      List.Forall₂ (CaseOk code lang) l rs →
      runTestCases code lang l = .ok rs := by
  intro l rs h
  induction h with
  | nil => rfl
  | cons hc _ ih =>
      rename_i tc r l' rs'
      simp only [runTestCases] at ih ⊢
      rw [List.mapM_cons, hc.1, ih]
      rfl

/-! ## Claims C4 and C5 (amended forms) -/

/-- Claim C4 (amended): whenever every test case in the list is
non-nullish — neither `null` nor `undefined`, the exact boundary the
code draws, since property access throws only on a nullish base — the
runner returns a list of the same length, in the same order, whose
i-th result's `input` and `expected` fields equal the i-th case's
properties (for a non-object element such as a number both reads yield
`undefined` without throwing).  A nullish element instead makes the
whole batch reject: the catch handler itself dereferences the case. -/
theorem runTestCases_length_order_fields (code lang : Str) (tcs : List JSVal)
    (h : ∀ tc ∈ tcs, nonNullish tc = true) :
    ∃ rs, runTestCases code lang tcs = .ok rs ∧ rs.length = tcs.length ∧
      List.Forall₂ (fun tc r => r.input = fieldOf tc (str ("input")) ∧
        r.expected = fieldOf tc (str ("expected"))) tcs rs := by
  obtain ⟨rs, hrs⟩ := forall₂_caseOk code lang tcs h
  refine ⟨rs, runTestCases_of_forall₂ code lang tcs rs hrs, ?_, ?_⟩
  · exact hrs.length_eq.symm
  · exact hrs.imp (fun a b hab => ⟨hab.2.2.1, hab.2.1⟩)

/-- Witness for the amended C4 on a concrete three-case batch whose
last case is a plain number, not an object. -/
theorem runTestCases_length_order_fields_witness :
    ∃ rs, runTestCases (str ("def is_even(n):\n    return n % 2 == 0")) (str ("python"))
        [JSVal.obj [(str ("input"), JSVal.arr [JSVal.num 2]), (str ("expected"), JSVal.bool true)],
         JSVal.obj [(str ("input"), JSVal.arr [JSVal.num 3]), (str ("expected"), JSVal.bool false)],
         JSVal.num 42] =
        .ok rs ∧
      rs.length =
        [JSVal.obj [(str ("input"), JSVal.arr [JSVal.num 2]), (str ("expected"), JSVal.bool true)],
         JSVal.obj [(str ("input"), JSVal.arr [JSVal.num 3]), (str ("expected"), JSVal.bool false)],
         JSVal.num 42].length ∧
      List.Forall₂ (fun tc r => r.input = fieldOf tc (str ("input")) ∧
          r.expected = fieldOf tc (str ("expected")))
        [JSVal.obj [(str ("input"), JSVal.arr [JSVal.num 2]), (str ("expected"), JSVal.bool true)],
         JSVal.obj [(str ("input"), JSVal.arr [JSVal.num 3]), (str ("expected"), JSVal.bool false)],
         JSVal.num 42] rs :=
  runTestCases_length_order_fields _ _ _ (by intro tc htc; fin_cases htc <;> rfl)

/-- Claim C5 (amended): provided every case in the batch is
non-nullish (the counterexample shows a null case makes the catch
handler itself throw and the batch reject), an error thrown while
evaluating one case is recorded on that case's result (`passed =
false`, `actual = null`, the message in `error`), and the results of
all the other cases are exactly those of the batch with that case
removed; the batch itself returns normally. -/
theorem runTestCases_error_isolated (code lang : Str) (xs ys : List JSVal) (c : JSVal)
    (h : ∀ tc ∈ xs ++ c :: ys, nonNullish tc = true) :
    ∃ rsx r rsy,
      runTestCases code lang (xs ++ c :: ys) = .ok (rsx ++ r :: rsy) ∧
      runTestCases code lang (xs ++ ys) = .ok (rsx ++ rsy) ∧
      (∀ e, tryEval code lang c = .error e →
        r.passed = false ∧ r.actual = JSVal.null ∧ r.error = some e) := by
  have hxs : ∀ tc ∈ xs, nonNullish tc = true :=
    fun tc htc => h tc (List.mem_append_left _ htc)
  have hc : nonNullish c = true :=
    h c (List.mem_append_right _ (List.mem_cons_self c ys))
  have hys : ∀ tc ∈ ys, nonNullish tc = true :=
    fun tc htc => h tc (List.mem_append_right _ (List.mem_cons_of_mem c htc))
  obtain ⟨rsx, hrsx⟩ := forall₂_caseOk code lang xs hxs
  obtain ⟨rsy, hrsy⟩ := forall₂_caseOk code lang ys hys
  obtain ⟨r, hr⟩ := runCase_nonNullish code lang c hc
  refine ⟨rsx, r, rsy, ?_, ?_, hr.2.2.2⟩
  · exact runTestCases_of_forall₂ code lang _ _ (List.rel_append hrsx (List.Forall₂.cons hr hrsy))
  · exact runTestCases_of_forall₂ code lang _ _ (List.rel_append hrsx hrsy)

/-- Witness for the amended C5: a batch whose middle case throws (an
empty object has no `input`, so indexing it throws) between two
well-formed cases. -/
theorem runTestCases_error_isolated_witness :
    ∃ rsx r rsy,
      runTestCases (str ("def is_even(n):\n    return n % 2 == 0")) (str ("python"))
        ([JSVal.obj [(str ("input"), JSVal.arr [JSVal.num 2]), (str ("expected"), JSVal.bool true)]] ++
          JSVal.obj [] ::
          [JSVal.obj [(str ("input"), JSVal.arr [JSVal.num 4]), (str ("expected"), JSVal.bool true)]]) =
        .ok (rsx ++ r :: rsy) ∧
      runTestCases (str ("def is_even(n):\n    return n % 2 == 0")) (str ("python"))
        ([JSVal.obj [(str ("input"), JSVal.arr [JSVal.num 2]), (str ("expected"), JSVal.bool true)]] ++
          [JSVal.obj [(str ("input"), JSVal.arr [JSVal.num 4]), (str ("expected"), JSVal.bool true)]]) =
        .ok (rsx ++ rsy) ∧
      (∀ e, tryEval (str ("def is_even(n):\n    return n % 2 == 0")) (str ("python")) (JSVal.obj []) =
          .error e →
        r.passed = false ∧ r.actual = JSVal.null ∧ r.error = some e) :=
  runTestCases_error_isolated _ _ _ _ _ (by intro tc htc; fin_cases htc <;> rfl)

/-! ## Claim C10: blank-line dropping in `convertPythonToJavaScript` -/

theorem buildLines_filter :
    ∀ (lines : List Str) (bc il : Nat),
      buildLines (lines.filter (fun l => !(trimStr l).isEmpty)) bc il =
        buildLines lines bc il := by
  intro lines
  induction lines with
  | nil => intro bc il; rfl
  | cons line rest ih =>
      intro bc il
      by_cases h : trimStr line = []
      · rw [List.filter_cons]
        simp only [h, List.isEmpty_nil, Bool.not_true, if_neg, Bool.false_eq_true,
          not_false_eq_true]
        rw [buildLines, if_neg (by simpa using h)]
        exact ih bc il
      · rw [List.filter_cons]
        have hne : (!(trimStr line).isEmpty) = true := by
          simpa [List.isEmpty_iff] using h
        rw [if_pos hne]
        rw [buildLines, buildLines]
        simp only [if_pos (by simpa using h : trimStr line ≠ [])]
        by_cases hb : hasSub line [lbrace] = true
        · simp only [hb, if_true, ih]
        · simp only [hb, if_false, Bool.false_eq_true, ih]
  
theorem buildLines_shape :
    ∀ (lines : List Str) (bc il : Nat),
      (∀ l ∈ lines, trimStr l ≠ []) →
      List.Forall₂ (fun l out => ∃ k, out = indentSp k ++ trimStr l) lines
        (buildLines lines bc il).1 := by
  intro lines
  induction lines with
  | nil => intro bc il _; exact List.Forall₂.nil
  | cons line rest ih =>
      intro bc il h
      have hl : trimStr line ≠ [] := h line (List.mem_cons_self line rest)
      have hrest : ∀ l ∈ rest, trimStr l ≠ [] := fun l hm => h l (List.mem_cons_of_mem line hm)
      rw [buildLines]
      simp only [if_pos hl]
      by_cases hb : hasSub line [lbrace] = true
      · simp only [hb, if_true]
        exact List.Forall₂.cons ⟨il, rfl⟩ (ih (bc + 1) (il + 1) hrest)
      · simp only [hb, Bool.false_eq_true, if_false]
        by_cases hr : (startsW (str ("return")) (trimStr line) ||
            startsW (str ("console.log")) (trimStr line)) = true
        · simp only [hr, if_true]
          exact List.Forall₂.cons ⟨il, rfl⟩ (ih bc il hrest)
        · simp only [hr, Bool.false_eq_true, if_false]
          exact List.Forall₂.cons ⟨il, rfl⟩ (ih bc il hrest)

theorem closingBraces_ne_nil : ∀ (k il : Nat), ∀ l ∈ closingBraces k il, l ≠ [] := by
  intro k
  induction k with
  | zero => intro il l hm; cases hm
  | succ k' ih =>
      intro il l hm
      rw [closingBraces] at hm
      rcases List.mem_cons.mp hm with h | h
      · subst h
        simp
      · exact ih (il - 1) l h

theorem forall₂_mem_right {α β : Type} {R : α → β → Prop} :
    ∀ {l₁ : List α} {l₂ : List β}, List.Forall₂ R l₁ l₂ → ∀ b ∈ l₂, ∃ a ∈ l₁, R a b := by
  intro l₁ l₂ h
  induction h with
  | nil => intro b hb; cases hb
  | cons hab _ ih =>
      intro b hb
      rcases List.mem_cons.mp hb with rfl | hb'
      · exact ⟨_, List.mem_cons_self _ _, hab⟩
      · obtain ⟨a, ha, har⟩ := ih b hb'
        exact ⟨a, List.mem_cons_of_mem _ ha, har⟩

/-- Claim C10: the python-to-javascript conversion drops every blank
or whitespace-only line: its output is the join of the non-blank
rewritten lines (each a re-indentation of its trimmed text, one output
line per non-blank input line, in order) followed by the appended
closing braces, and every one of those lines is non-empty. -/
theorem pyToJs_drops_blank_lines (code : Str) :
    ∃ body bc il,
      buildLines (splitNL (pyJsReplaced code)) 0 0 = (body, bc, il) ∧
      buildLines ((splitNL (pyJsReplaced code)).filter (fun l => !(trimStr l).isEmpty)) 0 0 =
        (body, bc, il) ∧
      convertPythonToJavaScript code = joinNL (body ++ closingBraces bc il) ∧
      List.Forall₂ (fun l out => ∃ k, out = indentSp k ++ trimStr l)
        ((splitNL (pyJsReplaced code)).filter (fun l => !(trimStr l).isEmpty)) body ∧
      (∀ l ∈ body ++ closingBraces bc il, l ≠ []) := by
  generalize hb : buildLines (splitNL (pyJsReplaced code)) 0 0 = B
  obtain ⟨body, bc, il⟩ := B
  refine ⟨body, bc, il, rfl, (buildLines_filter (splitNL (pyJsReplaced code)) 0 0).trans hb,
    ?_, ?_, ?_⟩
  · show joinNL ((buildLines (splitNL (pyJsReplaced code)) 0 0).1 ++
        closingBraces (buildLines (splitNL (pyJsReplaced code)) 0 0).2.1
          (buildLines (splitNL (pyJsReplaced code)) 0 0).2.2) =
      joinNL (body ++ closingBraces bc il)
    rw [hb]
  · have := buildLines_shape ((splitNL (pyJsReplaced code)).filter (fun l => !(trimStr l).isEmpty))
      0 0 (by
        intro l hm
        have := List.of_mem_filter hm
        simpa [List.isEmpty_iff] using this)
    rw [buildLines_filter, hb] at this
    exact this
  · intro l hm
    rcases List.mem_append.mp hm with h | h
    · have hshape := buildLines_shape
        ((splitNL (pyJsReplaced code)).filter (fun l => !(trimStr l).isEmpty)) 0 0 (by
          intro l' hm'
          have := List.of_mem_filter hm'
          simpa [List.isEmpty_iff] using this)
      rw [buildLines_filter, hb] at hshape
      obtain ⟨l', hl', ⟨k, hk⟩⟩ := forall₂_mem_right hshape l h
      have hne : trimStr l' ≠ [] := by
        have := List.of_mem_filter hl'
        simpa [List.isEmpty_iff] using this
      subst hk
      simp [hne]
    · exact closingBraces_ne_nil bc il l h

/-! ## Claim C7: the comment-attachment step of the fix engine -/

/-- Modelled from the amended claim's words: for a rule whose pattern
occurs, replace all occurrences; then, unless the explanation is
already present, insert `  // ` followed by the explanation
immediately after the first occurrence of the rule's literal
replacement-template string — if the template occurs at all (the empty
template occurs at position 0, so the comment is prepended; a template
containing a `$1` placeholder typically never occurs, and then no
comment is attached). -/
def specFixStep (text : Str) (r : FixRule) : Str :=
  if testPat r.pattern text then
    let replaced := replaceAll r.pattern r.repF text
    if hasSub replaced r.comment then replaced
    else
      match splitFirst r.replacement replaced with
      | some ab => ab.1 ++ r.replacement ++ (str ("  // ") ++ r.comment) ++ ab.2
      | none => replaced
  else text

theorem splitFirst_nil (s : Str) : splitFirst [] s = some ([], s) := by
  cases s with
  | nil => rfl
  | cons c t => simp [splitFirst, startsW]

theorem applyFixRule_eq_spec (text : Str) (r : FixRule) :
    applyFixRule text r = specFixStep text r := by
  unfold applyFixRule specFixStep replaceStr
  by_cases ht : testPat r.pattern text = true
  · simp only [ht, if_true]
    by_cases hc : hasSub (replaceAll r.pattern r.repF text) r.comment = true
    · simp [hc]
    · simp only [hc, Bool.false_eq_true, if_false]
      cases hsp : splitFirst r.replacement (replaceAll r.pattern r.repF text) with
      | none => rfl
      | some ab => simp
  · simp [ht]

/-- Claim C7 (amended): the fix engine equals, rule by rule in table
order, the following step: if the pattern occurs, replace all
occurrences; then, unless the explanation is already present, splice
`  // explanation` in immediately after the first occurrence of the
rule's literal replacement-template string.  Consequently, when the
template does not occur in the replaced text (as for the off-by-one
and array-bounds rules, whose templates contain `$1`), no comment is
attached at all; and for the empty template of the deletion rules the
comment is prepended at position 0 rather than attached to any
replaced text. -/
theorem fixRules_comment_attachment :
    (∀ code lang, fixLogicalErrors code lang = List.foldl specFixStep code errorPatterns) ∧
    (∀ text r, testPat r.pattern text = true →
      hasSub (replaceAll r.pattern r.repF text) r.comment = false →
      hasSub (replaceAll r.pattern r.repF text) r.replacement = false →
      applyFixRule text r = replaceAll r.pattern r.repF text) ∧
    (∀ text r, r.replacement = [] → testPat r.pattern text = true →
      hasSub (replaceAll r.pattern r.repF text) r.comment = false →
      applyFixRule text r = (str ("  // ") ++ r.comment) ++ replaceAll r.pattern r.repF text) := by
  refine ⟨?_, ?_, ?_⟩
  · intro code lang
    show List.foldl applyFixRule code errorPatterns = List.foldl specFixStep code errorPatterns
    have : ∀ (l : List FixRule) (start : Str),
        List.foldl applyFixRule start l = List.foldl specFixStep start l := by
      intro l
      induction l with
      | nil => intro start; rfl
      | cons r rest ih =>
          intro start
          simp only [List.foldl_cons, applyFixRule_eq_spec, ih]
    exact this errorPatterns code
  · intro text r ht hc hrep
    unfold applyFixRule replaceStr
    have : splitFirst r.replacement (replaceAll r.pattern r.repF text) = none := by
      unfold hasSub at hrep
      exact Option.not_isSome_iff_eq_none.mp (by simp [hrep])
    simp [ht, hc, this]
  · intro text r hrepl ht hc
    unfold applyFixRule replaceStr
    simp [ht, hc, hrepl, splitFirst_nil]

/-- Witness for the amended C7: the engine/spec-step agreement on a
concrete input, the comment-less outcome of the off-by-one rule, and
the prepending outcome of the `&& true` deletion rule. -/
theorem fixRules_comment_attachment_witness :
    fixLogicalErrors (str ("x")) (str ("javascript")) =
      List.foldl specFixStep (str ("x")) errorPatterns ∧
    applyFixRule (str ("for (i = 0; i < a.length - 1"))
        { pattern := patForOffByOne,
          repF := fun cs => str ("for (let i = 0; i < ") ++ cs.getD 0 [] ++ str (".length"),
          replacement := str ("for (let i = 0; i < $1.length"),
          comment := str ("Fixed: off-by-one error") } =
      replaceAll patForOffByOne
        (fun cs => str ("for (let i = 0; i < ") ++ cs.getD 0 [] ++ str (".length"))
        (str ("for (i = 0; i < a.length - 1")) ∧
    applyFixRule (str ("x && true"))
        { pattern := patAndTrue, repF := fun _ => [], replacement := [],
          comment := str ("Simplified: && true is redundant") } =
      (str ("  // ") ++ str ("Simplified: && true is redundant")) ++
        replaceAll patAndTrue (fun _ => []) (str ("x && true")) :=
  ⟨fixRules_comment_attachment.1 _ _,
   fixRules_comment_attachment.2.1 _ _ (by decide) (by decide) (by decide),
   fixRules_comment_attachment.2.2 _ _ rfl (by decide) (by decide)⟩

/-! ## Prefix/suffix lemmas for the replacement-completeness argument -/

theorem startsW_nil_iff (X : Str) : startsW X [] = true ↔ X = [] := by
  cases X <;> simp [startsW]

theorem hasSub_nil (X : Str) (h : X ≠ []) : hasSub [] X = false := by
  cases X with
  | nil => exact absurd rfl h
  | cons x X' => simp [hasSub, splitFirst, startsW]

theorem startsW_length_le : ∀ A s : Str, startsW A s = true → A.length ≤ s.length := by
  intro A
  induction A with
  | nil => intro s _; simp
  | cons a A' ih =>
      intro s h
      cases s with
      | nil => simp [startsW] at h
      | cons c t =>
          simp only [startsW, Bool.and_eq_true] at h
          simpa using ih t h.2

theorem startsW_append_left : ∀ A B C : Str,
    startsW A (B ++ C) = true → A.length ≤ B.length → startsW A B = true := by
  intro A
  induction A with
  | nil => intro B C _ _; rfl
  | cons a A' ih =>
      intro B C h hle
      cases B with
      | nil => simp at hle
      | cons b B' =>
          simp only [List.cons_append, startsW, Bool.and_eq_true] at h ⊢
          exact ⟨h.1, ih B' C h.2 (by simpa using hle)⟩

theorem startsW_append_split : ∀ B X C : Str,
    startsW X (B ++ C) = true → B.length ≤ X.length →
    startsW B X = true ∧ startsW (X.drop B.length) C = true := by
  intro B
  induction B with
  | nil => intro X C h _; exact ⟨rfl, by simpa using h⟩
  | cons b B' ih =>
      intro X C h hle
      cases X with
      | nil => simp at hle
      | cons x X' =>
          simp only [List.cons_append, startsW, Bool.and_eq_true, decide_eq_true_eq] at h ⊢
          obtain ⟨rfl, h2⟩ := h
          obtain ⟨hA, hB⟩ := ih X' C h2 (by simpa using hle)
          exact ⟨⟨rfl, hA⟩, by simpa using hB⟩

theorem startsW_take_eq : ∀ B X : Str, startsW B X = true → X.take B.length = B := by
  intro B
  induction B with
  | nil => intro X _; rfl
  | cons b B' ih =>
      intro X h
      cases X with
      | nil => simp [startsW] at h
      | cons x X' =>
          simp only [startsW, Bool.and_eq_true, decide_eq_true_eq] at h
          obtain ⟨rfl, h2⟩ := h
          simp [List.take, ih X' h2]

theorem startsW_append_of : ∀ A s x : Str, startsW A s = true → startsW A (s ++ x) = true := by
  intro A
  induction A with
  | nil => intro s x _; rfl
  | cons a A' ih =>
      intro s x h
      cases s with
      | nil => simp [startsW_nil_iff] at h
      | cons c t =>
          simp only [List.cons_append, startsW, Bool.and_eq_true] at h ⊢
          exact ⟨h.1, ih t x h.2⟩

/-- Does `sfx` occur at the end of `s`? -/
def endsW (sfx s : Str) : Bool := startsW sfx.reverse s.reverse

theorem endsW_self (A : Str) : endsW A A = true := by
  have := startsW_append_of A.reverse A.reverse [] (by
    have : startsW A.reverse (A.reverse ++ []) = true := startsW_append_right _ _
    simpa using this)
  simpa [endsW] using this

theorem endsW_cons (A : Str) (b : Char) (B : Str) (h : endsW A B = true) :
    endsW A (b :: B) = true := by
  unfold endsW at h ⊢
  rw [List.reverse_cons]
  exact startsW_append_of _ _ _ h

theorem hasSub_cons (c : Char) (t X : Str) :
    hasSub (c :: t) X = (startsW X (c :: t) || hasSub t X) := by
  unfold hasSub
  rw [splitFirst]
  by_cases h : startsW X (c :: t) = true
  · simp [h]
  · simp only [h, if_neg, Bool.false_eq_true, not_false_eq_true, Option.isSome_map]
    simp [h]

theorem hasSub_append_cases (X : Str) : ∀ B C : Str, hasSub (B ++ C) X = true →
    hasSub B X = true ∨ hasSub C X = true ∨
    ∃ k, 0 < k ∧ k < X.length ∧ endsW (X.take k) B = true ∧
      startsW (X.drop k) C = true := by
  intro B
  induction B with
  | nil => intro C h; exact Or.inr (Or.inl (by simpa using h))
  | cons b B' ih =>
      intro C h
      rw [List.cons_append, hasSub_cons, Bool.or_eq_true] at h
      cases h with
      | inl hst =>
          by_cases hle : X.length ≤ (b :: B').length
          · left
            rw [hasSub_cons]
            have := startsW_append_left X (b :: B') C (by simpa using hst) hle
            simp [this]
          · right; right
            push_neg at hle
            have hsp := startsW_append_split (b :: B') X C (by simpa using hst) (Nat.le_of_lt hle)
            refine ⟨(b :: B').length, by simp, hle, ?_, hsp.2⟩
            rw [startsW_take_eq (b :: B') X hsp.1]
            exact endsW_self _
      | inr hrest =>
          rcases ih C hrest with h1 | h2 | ⟨k, hk0, hkl, he, hs⟩
          · left
            rw [hasSub_cons, h1]
            simp
          · exact Or.inr (Or.inl h2)
          · exact Or.inr (Or.inr ⟨k, hk0, hkl, endsW_cons _ b _ he, hs⟩)

/-! ## Completeness of global replacement for splice-safe patterns -/

theorem replaceAllAux_step_keep (toks : List Tok) (rep : List Str → Str) (fuel : Nat)
    (prev : Option Char) (c : Char) (t : Str)
    (h : ∀ nc : Nat × List Str, matchPat toks prev (c :: t) = some nc → ¬ 0 < nc.1) :
    replaceAllAux toks rep (fuel + 1) prev (c :: t) =
      c :: replaceAllAux toks rep fuel (some c) t := by
  rw [replaceAllAux]
  cases hm : matchPat toks prev (c :: t) with
  | none => rfl
  | some nc => simp [h nc hm]

theorem replaceAllAux_step_match (toks : List Tok) (rep : List Str → Str) (fuel : Nat)
    (prev : Option Char) (c : Char) (t : Str) (nc : Nat × List Str)
    (hm : matchPat toks prev (c :: t) = some nc) (hpos : 0 < nc.1) :
    replaceAllAux toks rep (fuel + 1) prev (c :: t) =
      rep nc.2 ++ replaceAllAux toks rep fuel
        (match ((c :: t).take nc.1).getLast? with | some d => some d | none => prev)
        ((c :: t).drop nc.1) := by
  rw [replaceAllAux, hm]
  simp [hpos]

/-- The central completeness lemma: if every occurrence of the literal
`X` starts a (non-empty) pattern match, and the constant replacement
text `rep` can neither contain `X` nor splice a new `X` together with
its context (no tail of `X` is a prefix of `rep`, no proper front of
`X` is a suffix of `rep`, and `rep` is long enough that `X` cannot
jump over it), then the text after global replacement contains no
occurrence of `X` at all. -/
theorem replaceAll_removes (toks : List Tok) (rep X : Str)
    (hX : X ≠ [])
    (h1 : ∀ prev s, startsW X s = true →
      ∃ nc : Nat × List Str, matchPat toks prev s = some nc ∧ 0 < nc.1)
    (h2 : hasSub rep X = false)
    (h3 : ∀ k, 1 ≤ k → k < X.length → startsW (X.drop k) rep = false)
    (h4 : ∀ k, 1 ≤ k → k < X.length → endsW (X.take k) rep = false)
    (h5 : X.length ≤ rep.length + 1) :
    ∀ (fuel : Nat) (prev : Option Char) (s : Str), s.length ≤ fuel →
      hasSub (replaceAllAux toks (fun _ => rep) fuel prev s) X = false ∧
      (∀ k, 1 ≤ k → k < X.length →
        startsW (X.drop k) (replaceAllAux toks (fun _ => rep) fuel prev s) = true →
        startsW (X.drop k) s = true) := by
  intro fuel
  induction fuel with
  | zero =>
      intro prev s hlen
      have hs : s = [] := List.length_eq_zero.mp (Nat.le_zero.mp hlen)
      subst hs
      exact ⟨hasSub_nil X hX, fun k _ _ hst => hst⟩
  | succ fuel ih =>
      intro prev s hlen
      cases s with
      | nil => exact ⟨hasSub_nil X hX, fun k _ _ hst => hst⟩
      | cons c t =>
          by_cases hstep : ∃ nc : Nat × List Str,
              matchPat toks prev (c :: t) = some nc ∧ 0 < nc.1
          · obtain ⟨nc, hm, hpos⟩ := hstep
            have hres := replaceAllAux_step_match toks (fun _ => rep) fuel prev c t nc hm hpos
            have hlen' : ((c :: t).drop nc.1).length ≤ fuel := by
              simp only [List.length_drop, List.length_cons]
              simp only [List.length_cons] at hlen
              omega
            obtain ⟨ihA, ihB⟩ := ih _ _ hlen'
            rw [hres]
            constructor
            · cases hh : hasSub (rep ++ replaceAllAux toks (fun _ => rep) fuel _ _) X with
              | false => rfl
              | true =>
                  exfalso
                  rcases hasSub_append_cases X rep _ hh with hin | hin | ⟨k, hk0, hkl, he, hs⟩
                  · rw [h2] at hin; cases hin
                  · rw [ihA] at hin; cases hin
                  · rw [h4 k hk0 hkl] at he
                    cases he
            · intro k hk1 hk2 hst
              exfalso
              have hle : (X.drop k).length ≤ rep.length := by
                simp only [List.length_drop]
                omega
              have := startsW_append_left (X.drop k) rep _ hst hle
              rw [h3 k hk1 hk2] at this
              cases this
          · have hkeep : ∀ nc : Nat × List Str,
                matchPat toks prev (c :: t) = some nc → ¬ 0 < nc.1 :=
              fun nc hm hpos => hstep ⟨nc, hm, hpos⟩
            have hres := replaceAllAux_step_keep toks (fun _ => rep) fuel prev c t hkeep
            have htlen : t.length ≤ fuel := by
              simp only [List.length_cons] at hlen
              omega
            obtain ⟨ihA, ihB⟩ := ih (some c) t htlen
            have hnostart : startsW X (c :: t) = false := by
              cases hxs : startsW X (c :: t) with
              | false => rfl
              | true =>
                  exfalso
                  obtain ⟨nc, hm, hpos⟩ := h1 prev (c :: t) hxs
                  exact hstep ⟨nc, hm, hpos⟩
            rw [hres]
            constructor
            · rw [hasSub_cons]
              have hnot : startsW X
                  (c :: replaceAllAux toks (fun _ => rep) fuel (some c) t) = false := by
                cases hxs : startsW X (c :: replaceAllAux toks (fun _ => rep) fuel (some c) t) with
                | false => rfl
                | true =>
                    exfalso
                    cases hXc : X with
                    | nil => exact hX hXc
                    | cons x X' =>
                        rw [hXc] at hxs
                        simp only [startsW, Bool.and_eq_true, decide_eq_true_eq] at hxs
                        obtain ⟨hx1, hx2⟩ := hxs
                        have hX'drop : X.drop 1 = X' := by rw [hXc]; rfl
                        have hstart : startsW X (c :: t) = true := by
                          rw [hXc]
                          simp only [startsW, Bool.and_eq_true, decide_eq_true_eq]
                          refine ⟨hx1, ?_⟩
                          cases hX'' : X' with
                          | nil => rfl
                          | cons y Y =>
                              have hk : startsW (X.drop 1) t = true := by
                                apply ihB 1 (by omega) ?_ ?_
                                · rw [hXc, hX'']
                                  simp
                                · rw [hX'drop]
                                  exact hx2
                              rw [hX'drop, hX''] at hk
                              exact hk
                        rw [hnostart] at hstart
                        cases hstart
              simp [hnot, ihA]
            · intro k hk1 hk2 hst
              have hdrop : X.drop k = X[k] :: X.drop (k + 1) :=
                List.drop_eq_getElem_cons hk2
              rw [hdrop] at hst ⊢
              simp only [startsW, Bool.and_eq_true, decide_eq_true_eq] at hst ⊢
              refine ⟨hst.1, ?_⟩
              by_cases hk3 : k + 1 < X.length
              · exact ihB (k + 1) (by omega) hk3 hst.2
              · have : X.drop (k + 1) = [] := List.drop_eq_nil_of_le (by omega)
                rw [this]
                rfl

/-! ## Preservation of an untouched window under global replacement -/

theorem hasSub_append_right_of (B s L : Str) (h : hasSub s L = true) :
    hasSub (B ++ s) L = true := by
  obtain ⟨a, b, rfl⟩ := hasSub_exists s L h
  exact hasSub_of_eq_append _ (B ++ a) L b (by simp)

theorem hasSub_append_left_of (s y L : Str) (h : hasSub s L = true) :
    hasSub (s ++ y) L = true := by
  obtain ⟨a, b, rfl⟩ := hasSub_exists s L h
  exact hasSub_of_eq_append _ a L (b ++ y) (by simp)

/-- Phase B: while the scan is inside a window on which the pattern can
never match, it copies the window character by character. -/
theorem replaceAll_passes_window (toks : List Tok) (rep : List Str → Str) (L : Str)
    (hK1 : ∀ j, j < L.length → ∀ (prev : Option Char) (y : Str),
      matchPat toks prev (L.drop j ++ y) = none) :
    ∀ (d j : Nat), j + d = L.length → ∀ (fuel : Nat) (prev : Option Char) (v : Str),
      d ≤ fuel →
      ∃ prev', replaceAllAux toks rep fuel prev (L.drop j ++ v) =
        L.drop j ++ replaceAllAux toks rep (fuel - d) prev' v := by
  intro d
  induction d with
  | zero =>
      intro j hj fuel prev v _
      have hnil : L.drop j = [] := List.drop_eq_nil_of_le (by omega)
      rw [hnil]
      exact ⟨prev, by simp⟩
  | succ d ih =>
      intro j hj fuel prev v hfuel
      have hjlt : j < L.length := by omega
      have hdrop : L.drop j = L[j] :: L.drop (j + 1) := List.drop_eq_getElem_cons hjlt
      obtain ⟨fuel', rfl⟩ : ∃ f, fuel = f + 1 := ⟨fuel - 1, by omega⟩
      have hnone := hK1 j hjlt prev v
      rw [hdrop, List.cons_append] at hnone ⊢
      have hres : replaceAllAux toks rep (fuel' + 1) prev
          (L[j] :: (L.drop (j + 1) ++ v)) =
          L[j] :: replaceAllAux toks rep fuel' (some L[j]) (L.drop (j + 1) ++ v) := by
        apply replaceAllAux_step_keep
        intro nc hm
        rw [hnone] at hm
        cases hm
      obtain ⟨prev', hrec⟩ := ih (j + 1) (by omega) fuel' (some L[j]) v (by omega)
      rw [hres, hrec]
      refine ⟨prev', ?_⟩
      rw [Nat.succ_sub_succ, List.cons_append]

/-- Phase A: under the no-match-inside (K1) and no-match-overlap (K2)
conditions, global replacement preserves an occurrence of `L`. -/
theorem replaceAll_keeps_aux (toks : List Tok) (rep : List Str → Str) (L : Str)
    (hL : L ≠ [])
    (hK1 : ∀ j, j < L.length → ∀ (prev : Option Char) (y : Str),
      matchPat toks prev (L.drop j ++ y) = none)
    (hK2 : ∀ (prev : Option Char) (s : Str) (nc : Nat × List Str),
      matchPat toks prev s = some nc →
      ∀ p, 0 < p → p < nc.1 → startsW L (s.drop p) = false) :
    ∀ (fuel : Nat) (prev : Option Char) (a v : Str),
      (a ++ (L ++ v)).length ≤ fuel →
      hasSub (replaceAllAux toks rep fuel prev (a ++ (L ++ v))) L = true := by
  intro fuel
  induction fuel with
  | zero =>
      intro prev a v hlen
      exfalso
      simp only [List.length_append, Nat.le_zero] at hlen
      have : L.length = 0 := by omega
      exact hL (List.length_eq_zero.mp this)
  | succ fuel ih =>
      intro prev a v hlen
      cases a with
      | nil =>
          simp only [List.nil_append]
          obtain ⟨prev', hres⟩ := replaceAll_passes_window toks rep L hK1 L.length 0
            (by omega) (fuel + 1) prev v (by
              simp only [List.nil_append, List.length_append] at hlen
              omega)
          simp only [List.drop_zero] at hres
          rw [hres]
          exact hasSub_of_eq_append _ [] L
            (replaceAllAux toks rep (fuel + 1 - L.length) prev' v) (by simp)
      | cons c a' =>
          have hlen' : (a' ++ (L ++ v)).length ≤ fuel := by
            simp only [List.cons_append, List.length_cons] at hlen
            omega
          by_cases hstep : ∃ nc : Nat × List Str,
              matchPat toks prev (c :: (a' ++ (L ++ v))) = some nc ∧ 0 < nc.1
          · obtain ⟨nc, hm, hpos⟩ := hstep
            have hble : nc.1 ≤ a'.length + 1 := by
              by_contra hgt
              push_neg at hgt
              have hk2 := hK2 prev _ nc hm (a'.length + 1) (by omega) (by omega)
              have hde : (c :: (a' ++ (L ++ v))).drop (a'.length + 1) = L ++ v := by
                show (a' ++ (L ++ v)).drop a'.length = L ++ v
                exact List.drop_left a' (L ++ v)
              rw [hde, startsW_append_right] at hk2
              cases hk2
            have hres := replaceAllAux_step_match toks rep fuel prev c _ nc hm hpos
            try simp only [List.cons_append] at hres ⊢
            rw [hres]
            obtain ⟨m, hmeq⟩ : ∃ m, nc.1 = m + 1 := ⟨nc.1 - 1, by omega⟩
            have hdropeq : (c :: (a' ++ (L ++ v))).drop nc.1 =
                (a'.drop m) ++ (L ++ v) := by
              rw [hmeq]
              show (a' ++ (L ++ v)).drop m = a'.drop m ++ (L ++ v)
              exact List.drop_append_of_le_length (by omega)
            rw [hdropeq]
            apply hasSub_append_right_of
            apply ih _ (a'.drop m) v
            simp only [List.length_append, List.length_drop] at hlen' ⊢
            omega
          · have hkeep : ∀ nc : Nat × List Str,
                matchPat toks prev (c :: (a' ++ (L ++ v))) = some nc → ¬ 0 < nc.1 :=
              fun nc hm hpos => hstep ⟨nc, hm, hpos⟩
            have hres := replaceAllAux_step_keep toks rep fuel prev c _ hkeep
            try simp only [List.cons_append] at hres ⊢
            rw [hres, hasSub_cons]
            have := ih (some c) a' v hlen'
            rw [this]
            simp

/-- Global replacement preserves containment of a window `L` which no
match can start inside (K1) or reach into from the left (K2). -/
theorem replaceAll_keeps (toks : List Tok) (rep : List Str → Str) (L : Str)
    (hL : L ≠ [])
    (hK1 : ∀ j, j < L.length → ∀ (prev : Option Char) (y : Str),
      matchPat toks prev (L.drop j ++ y) = none)
    (hK2 : ∀ (prev : Option Char) (s : Str) (nc : Nat × List Str),
      matchPat toks prev s = some nc →
      ∀ p, 0 < p → p < nc.1 → startsW L (s.drop p) = false)
    (s : Str) (h : hasSub s L = true) :
    hasSub (replaceAll toks rep s) L = true := by
  obtain ⟨a, b, rfl⟩ := hasSub_exists s L h
  exact replaceAll_keeps_aux toks rep L hL hK1 hK2 _ none a b (by simp)

/-! ## Inversion of the matcher into per-token segments -/

/-- The text a single token can consume. -/
def TokSeg : Tok → Str → Prop
  | .lit c, seg => seg = [c]
  | .star p, seg => ∀ ch ∈ seg, p ch = true
  | .plus p, seg => seg ≠ [] ∧ ∀ ch ∈ seg, p ch = true
  | .lazyStar p, seg => ∀ ch ∈ seg, p ch = true
  | .openG, seg => seg = []
  | .closeG, seg => seg = []
  | .eol, seg => seg = []
  | .bdry, seg => seg = []
  | .altLits opts, seg => seg ∈ opts

theorem runLen_le (p : Char → Bool) : ∀ s : Str, runLen p s ≤ s.length := by
  intro s
  induction s with
  | nil => simp [runLen]
  | cons c t ih =>
      rw [runLen]
      by_cases h : p c = true
      · simpa [h] using ih
      · simp [h]

theorem runLen_take (p : Char → Bool) :
    ∀ (s : Str) (j : Nat), j ≤ runLen p s → ∀ c ∈ s.take j, p c = true := by
  intro s
  induction s with
  | nil => intro j _ c hc; simp at hc
  | cons d t ih =>
      intro j hj c hc
      rw [runLen] at hj
      by_cases hd : p d = true
      · rw [if_pos hd] at hj
        cases j with
        | zero => simp at hc
        | succ j' =>
            simp only [List.take_succ_cons, List.mem_cons] at hc
            rcases hc with rfl | hc
            · exact hd
            · exact ih j' (by omega) c hc
      · rw [if_neg hd] at hj
        have : j = 0 := by omega
        subst this
        simp at hc

theorem starTry_inv (cont : Str → Option Char → Str → Option (Nat × List Str))
    (prev : Option Char) (s : Str) :
    ∀ (k n : Nat) (cs : List Str), starTry cont prev s k = some (n, cs) →
      ∃ (k' : Nat) (prev' : Option Char) (m : Nat), k' ≤ k ∧
        cont (s.take k') prev' (s.drop k') = some (m, cs) ∧ n = k' + m := by
  intro k
  induction k with
  | zero =>
      intro n cs h
      exact ⟨0, prev, n, Nat.le_refl 0, by simpa using h, by omega⟩
  | succ k ih =>
      intro n cs h
      rw [starTry] at h
      cases hc : cont (s.take (k + 1))
          (match (s.take (k + 1)).getLast? with | some d => some d | none => prev)
          (s.drop (k + 1)) with
      | some nc =>
          rw [hc] at h
          injection h with h'
          rw [Prod.mk.injEq] at h'
          exact ⟨k + 1, _, nc.1, Nat.le_refl _, by rw [hc, ← h'.2], by omega⟩
      | none =>
          rw [hc] at h
          obtain ⟨k', prev', m, hk, hcont, hn⟩ := ih n cs h
          exact ⟨k', prev', m, Nat.le_succ_of_le hk, hcont, hn⟩

theorem lazyTry_inv (p : Char → Bool)
    (cont : Str → Option Char → Str → Option (Nat × List Str)) :
    ∀ (fuel : Nat) (done : Str) (prev : Option Char) (s : Str) (n : Nat) (cs : List Str),
      lazyTry p cont fuel done prev s = some (n, cs) →
      ∃ (j : Nat) (prev' : Option Char) (m : Nat), j ≤ s.length ∧
        (∀ c ∈ s.take j, p c = true) ∧
        cont (done ++ s.take j) prev' (s.drop j) = some (m, cs) ∧
        n = done.length + j + m := by
  intro fuel
  induction fuel with
  | zero =>
      intro done prev s n cs h
      rw [lazyTry] at h
      rw [Option.map_eq_some'] at h
      obtain ⟨nc, hc, h'⟩ := h
      rw [Prod.mk.injEq] at h'
      exact ⟨0, prev, nc.1, by omega, by simp, by simpa [← h'.2] using hc, by omega⟩
  | succ fuel ih =>
      intro done prev s n cs h
      simp only [lazyTry] at h
      cases hc : cont done prev s with
      | some nc =>
          rw [hc] at h
          injection h with h'
          rw [Prod.mk.injEq] at h'
          exact ⟨0, prev, nc.1, by omega, by simp, by simpa [← h'.2] using hc, by omega⟩
      | none =>
          rw [hc] at h
          cases s with
          | nil => simp at h
          | cons c t =>
              by_cases hp : p c = true
              · simp only [hp, if_true] at h
                obtain ⟨j, prev', m, hj, hch, hcont, hn⟩ := ih (done ++ [c]) (some c) t n cs h
                refine ⟨j + 1, prev', m, by simpa using hj, ?_, ?_, ?_⟩
                · intro x hx
                  simp only [List.take_succ_cons, List.mem_cons] at hx
                  rcases hx with rfl | hx
                  · exact hp
                  · exact hch x hx
                · simpa [List.append_assoc] using hcont
                · simp only [List.length_append, List.length_cons, List.length_nil] at hn ⊢
                  omega
              · simp only [hp] at h
                simp at h

theorem altTry_inv (cont : Str → Option Char → Str → Option (Nat × List Str))
    (prev : Option Char) (s : Str) :
    ∀ (opts : List Str) (n : Nat) (cs : List Str), altTry cont prev s opts = some (n, cs) →
      ∃ (opt : Str) (prev' : Option Char) (m : Nat), opt ∈ opts ∧ startsW opt s = true ∧
        cont opt prev' (s.drop opt.length) = some (m, cs) ∧ n = opt.length + m := by
  intro opts
  induction opts with
  | nil => intro n cs h; cases h
  | cons opt rest ih =>
      intro n cs h
      rw [altTry] at h
      by_cases hst : startsW opt s = true
      · rw [if_pos hst] at h
        cases hc : cont opt
            (match opt.getLast? with | some d => some d | none => prev)
            (s.drop opt.length) with
        | some nc =>
            rw [hc] at h
            injection h with h'
            rw [Prod.mk.injEq] at h'
            exact ⟨opt, _, nc.1, List.mem_cons_self _ _, hst, by rw [hc, ← h'.2], by omega⟩
        | none =>
            rw [hc] at h
            obtain ⟨o, prev', m, ho, hos, hcont, hn⟩ := ih n cs h
            exact ⟨o, prev', m, List.mem_cons_of_mem _ ho, hos, hcont, hn⟩
      · rw [if_neg hst] at h
        obtain ⟨o, prev', m, ho, hos, hcont, hn⟩ := ih n cs h
        exact ⟨o, prev', m, List.mem_cons_of_mem _ ho, hos, hcont, hn⟩

/-- Any successful match decomposes into one consumed segment per
token, each segment drawn from that token's language. -/
theorem matchToks_decomp :
    ∀ (toks : List Tok) (pend : Option Str) (prev : Option Char) (s : Str)
      (n : Nat) (cs : List Str),
      matchToks toks pend prev s = some (n, cs) →
      n ≤ s.length ∧ ∃ segs : List Str,
        List.Forall₂ TokSeg toks segs ∧ segs.join = s.take n := by
  intro toks
  induction toks with
  | nil =>
      intro pend prev s n cs h
      rw [matchToks] at h
      injection h with h'
      rw [Prod.mk.injEq] at h'
      refine ⟨by omega, [], List.Forall₂.nil, ?_⟩
      rw [← h'.1]
      simp
  | cons t ts ih =>
      intro pend prev s n cs h
      cases t with
      | lit c =>
          cases s with
          | nil => rw [matchToks] at h; cases h
          | cons d s' =>
              simp only [matchToks] at h
              by_cases hd : d = c
              · rw [if_pos hd, Option.map_eq_some'] at h
                obtain ⟨nc, hm, h'⟩ := h
                obtain ⟨n₀, cs₀⟩ := nc
                rw [Prod.mk.injEq] at h'
                obtain ⟨hn, hcs⟩ := h'
                subst hn
                obtain ⟨hle, segs, hf, hj⟩ := ih _ _ _ n₀ cs₀ hm
                refine ⟨by simp only [List.length_cons]; omega, [d] :: segs, ?_, ?_⟩
                · exact List.Forall₂.cons (by simp [TokSeg, hd]) hf
                · simp [List.join_cons, List.take_succ_cons, hj]
              · rw [if_neg hd] at h
                cases h
      | star p =>
          rw [matchToks] at h
          obtain ⟨k, prev', m, hk, hcont, hn⟩ := starTry_inv _ prev s (runLen p s) n cs h
          subst hn
          obtain ⟨hle, segs, hf, hj⟩ := ih _ _ _ m cs hcont
          refine ⟨?_, s.take k :: segs, ?_, ?_⟩
          · have h1 := runLen_le p s
            simp only [List.length_drop] at hle
            omega
          · exact List.Forall₂.cons (runLen_take p s k hk) hf
          · simp only [List.join_cons, hj]
            rw [List.take_add]
      | plus p =>
          cases s with
          | nil => rw [matchToks] at h; cases h
          | cons c t =>
              simp only [matchToks] at h
              by_cases hp : p c = true
              · rw [if_pos hp, Option.map_eq_some'] at h
                obtain ⟨nc, hm, h'⟩ := h
                obtain ⟨n₀, cs₀⟩ := nc
                rw [Prod.mk.injEq] at h'
                obtain ⟨hn, hcs⟩ := h'
                subst hn
                obtain ⟨k, prev', m, hk, hcont, hn'⟩ :=
                  starTry_inv _ (some c) t (runLen p t) n₀ cs₀ hm
                subst hn'
                obtain ⟨hle, segs, hf, hj⟩ := ih _ _ _ m cs₀ hcont
                refine ⟨?_, (c :: t.take k) :: segs, ?_, ?_⟩
                · have h1 := runLen_le p t
                  simp only [List.length_drop] at hle
                  simp only [List.length_cons]
                  omega
                · refine List.Forall₂.cons ⟨by simp, ?_⟩ hf
                  intro ch hch
                  rcases List.mem_cons.mp hch with rfl | hch
                  · exact hp
                  · exact runLen_take p t k hk ch hch
                · simp only [List.join_cons, List.cons_append, List.take_succ_cons, hj]
                  rw [List.take_add]
              · rw [if_neg hp] at h
                cases h
      | lazyStar p =>
          rw [matchToks] at h
          obtain ⟨j, prev', m, hj', hch, hcont, hn⟩ := lazyTry_inv p _ s.length [] prev s n cs h
          simp only [List.length_nil, Nat.zero_add] at hn
          subst hn
          simp only [List.nil_append] at hcont
          obtain ⟨hle, segs, hf, hj⟩ := ih _ _ _ m cs hcont
          refine ⟨?_, s.take j :: segs, List.Forall₂.cons hch hf, ?_⟩
          · simp only [List.length_drop] at hle
            omega
          · simp only [List.join_cons, hj]
            rw [List.take_add]
      | openG =>
          rw [matchToks] at h
          obtain ⟨hle, segs, hf, hj⟩ := ih _ _ _ n cs h
          exact ⟨hle, [] :: segs, List.Forall₂.cons rfl hf, by simpa using hj⟩
      | closeG =>
          rw [matchToks, Option.map_eq_some'] at h
          obtain ⟨nc, hm, h'⟩ := h
          obtain ⟨n₀, cs₀⟩ := nc
          rw [Prod.mk.injEq] at h'
          obtain ⟨hn, hcs⟩ := h'
          subst hn
          obtain ⟨hle, segs, hf, hj⟩ := ih _ _ _ n₀ cs₀ hm
          exact ⟨hle, [] :: segs, List.Forall₂.cons rfl hf, by simpa using hj⟩
      | eol =>
          cases s with
          | nil =>
              simp only [matchToks] at h
              obtain ⟨hle, segs, hf, hj⟩ := ih _ _ _ n cs h
              exact ⟨hle, [] :: segs, List.Forall₂.cons rfl hf, by simpa using hj⟩
          | cons c t =>
              simp only [matchToks] at h
              by_cases hcr : (c = '\n' || c = '\r') = true
              · rw [if_pos hcr] at h
                obtain ⟨hle, segs, hf, hj⟩ := ih _ _ _ n cs h
                exact ⟨hle, [] :: segs, List.Forall₂.cons rfl hf, by simpa using hj⟩
              · rw [if_neg hcr] at h
                cases h
      | bdry =>
          simp only [matchToks] at h
          split at h
          · obtain ⟨hle, segs, hf, hj⟩ := ih _ _ _ n cs h
            exact ⟨hle, [] :: segs, List.Forall₂.cons rfl hf, by simpa using hj⟩
          · cases h
      | altLits opts =>
          rw [matchToks] at h
          obtain ⟨opt, prev', m, hopt, hst, hcont, hn⟩ := altTry_inv _ prev s opts n cs h
          subst hn
          obtain ⟨hle, segs, hf, hj⟩ := ih _ _ _ m cs hcont
          have hsl := startsW_length_le opt s hst
          refine ⟨?_, opt :: segs, List.Forall₂.cons hopt hf, ?_⟩
          · simp only [List.length_drop] at hle
            omega
          · simp only [List.join_cons, hj]
            rw [List.take_add, startsW_take_eq opt s hst]

/-! ## Character sets of patterns -/

/-- The set of characters a single token can consume. -/
def charInB (c : Char) : Tok → Bool
  | .lit d => c = d
  | .star p => p c
  | .plus p => p c
  | .lazyStar p => p c
  | .openG => false
  | .closeG => false
  | .eol => false
  | .bdry => false
  | .altLits opts => opts.any (fun o => decide (c ∈ o))

theorem TokSeg_chars (t : Tok) (seg : Str) (h : TokSeg t seg) :
    ∀ c ∈ seg, charInB c t = true := by
  cases t with
  | lit d =>
      intro c hc
      rw [show seg = [d] from h] at hc
      simp only [List.mem_singleton] at hc
      simp [charInB, hc]
  | star p => intro c hc; exact h c hc
  | plus p => intro c hc; exact h.2 c hc
  | lazyStar p => intro c hc; exact h c hc
  | openG => intro c hc; rw [show seg = [] from h] at hc; cases hc
  | closeG => intro c hc; rw [show seg = [] from h] at hc; cases hc
  | eol => intro c hc; rw [show seg = [] from h] at hc; cases hc
  | bdry => intro c hc; rw [show seg = [] from h] at hc; cases hc
  | altLits opts =>
      intro c hc
      simp only [charInB, List.any_eq_true, decide_eq_true_eq]
      exact ⟨seg, h, hc⟩

/-- No character of a match's consumed text lies outside the union of
the tokens' character sets. -/
theorem matchPat_chars (toks : List Tok) (c : Char)
    (hc : ∀ t ∈ toks, charInB c t = false) (prev : Option Char) (s : Str)
    (nc : Nat × List Str) (h : matchPat toks prev s = some nc) :
    c ∉ s.take nc.1 := by
  obtain ⟨hle, segs, hf, hj⟩ := matchToks_decomp toks none prev s nc.1 nc.2 h
  intro hmem
  rw [← hj] at hmem
  obtain ⟨seg, hseg, hcm⟩ := List.mem_join.mp hmem
  obtain ⟨t, ht, hts⟩ := forall₂_mem_right hf seg hseg
  have htr := TokSeg_chars t seg hts c hcm
  rw [hc t ht] at htr
  cases htr

/-- For a pattern headed by a literal, every consumed character past
position 0 lies in the tail tokens' character sets. -/
theorem matchPat_tail_chars (c₀ : Char) (ts : List Tok) (c : Char)
    (hc : ∀ t ∈ ts, charInB c t = false) (prev : Option Char) (s : Str)
    (nc : Nat × List Str) (h : matchPat (.lit c₀ :: ts) prev s = some nc) :
    ∀ p, 0 < p → c ∉ (s.take nc.1).drop p := by
  obtain ⟨hle, segs, hf, hj⟩ := matchToks_decomp _ none prev s nc.1 nc.2 h
  cases hf with
  | cons hab htail =>
      intro p hp hmem
      rename_i seg₀ rest
      rw [show seg₀ = [c₀] from hab] at hj
      rw [← hj] at hmem
      cases p with
      | zero => exact absurd hp (by simp)
      | succ p' =>
      simp only [List.join_cons, List.singleton_append, List.drop_succ_cons] at hmem
      have hcm : c ∈ rest.join := List.mem_of_mem_drop hmem
      obtain ⟨seg, hseg, hcm'⟩ := List.mem_join.mp hcm
      obtain ⟨t, ht, hts⟩ := forall₂_mem_right htail seg hseg
      have htr := TokSeg_chars t seg hts c hcm'
      rw [hc t ht] at htr
      cases htr

theorem forall₂_of_append {α β : Type} {R : α → β → Prop} :
    ∀ {l₁ l₂ : List α} {l : List β}, List.Forall₂ R (l₁ ++ l₂) l →
      ∃ m₁ m₂, l = m₁ ++ m₂ ∧ List.Forall₂ R l₁ m₁ ∧ List.Forall₂ R l₂ m₂ := by
  intro l₁
  induction l₁ with
  | nil => intro l₂ l h; exact ⟨[], l, rfl, List.Forall₂.nil, by simpa using h⟩
  | cons a l₁' ih =>
      intro l₂ l h
      rw [List.cons_append] at h
      cases h with
      | cons hab htail =>
          rename_i b bs
          obtain ⟨m₁, m₂, rfl, hf₁, hf₂⟩ := ih htail
          exact ⟨b :: m₁, m₂, rfl, List.Forall₂.cons hab hf₁, hf₂⟩

/-- For a pattern ending in a literal, the consumed text ends with
that literal character. -/
theorem matchPat_last_char (init : List Tok) (d : Char) (prev : Option Char) (s : Str)
    (nc : Nat × List Str) (h : matchPat (init ++ [.lit d]) prev s = some nc) :
    ∃ A : Str, s.take nc.1 = A ++ [d] := by
  obtain ⟨hle, segs, hf, hj⟩ := matchToks_decomp _ none prev s nc.1 nc.2 h
  obtain ⟨m₁, m₂, rfl, hf₁, hf₂⟩ := forall₂_of_append hf
  cases hf₂ with
  | cons hab htail =>
      cases htail
      rename_i seg
      rw [show seg = [d] from hab] at hj
      refine ⟨m₁.join, ?_⟩
      rw [← hj]
      simp

/-! ## No window occurrence can start strictly inside a match -/

theorem startsW_drop_char (L z s : Str) (c : Char) (p q : Nat)
    (hq : L.drop q = c :: z) (h : startsW L (s.drop p) = true) :
    ∃ w, s.drop (p + q) = c :: w := by
  have hs := startsW_take L (s.drop p) h
  have hdd : s.drop (p + q) = (s.drop p).drop q := by
    rw [List.drop_drop]
  have hqle : q ≤ L.length := by
    have := congrArg List.length hq
    simp only [List.length_drop, List.length_cons] at this
    omega
  rw [hdd, hs, List.drop_append_of_le_length hqle, hq]
  exact ⟨z ++ ((s.drop p).drop L.length), by simp⟩

theorem mem_take_of_drop_cons (s w : Str) (c : Char) (i n : Nat)
    (hd : s.drop i = c :: w) (hin : i < n) : c ∈ s.take n := by
  have h1 : (s.take n).drop i = (s.drop i).take (n - i) := List.drop_take n i s
  have h2 : n - i = (n - i - 1) + 1 := by omega
  have h3 : c ∈ (s.take n).drop i := by
    rw [h1, hd, h2, List.take_succ_cons]
    exact List.mem_cons_self _ _
  exact List.mem_of_mem_drop h3

/-- If none of the tokens can consume the window's head character,
the window cannot start strictly inside a match. -/
theorem noStartInside_of_absent (toks : List Tok) (c : Char) (w : Str)
    (hc : ∀ t ∈ toks, charInB c t = false) :
    ∀ (prev : Option Char) (s : Str) (nc : Nat × List Str),
      matchPat toks prev s = some nc →
      ∀ p, 0 < p → p < nc.1 → startsW (c :: w) (s.drop p) = false := by
  intro prev s nc h p _ hpn
  by_contra hst
  rw [Bool.not_eq_false] at hst
  obtain ⟨w₀, hw⟩ := startsW_drop_char (c :: w) w s c p 0 rfl hst
  rw [Nat.add_zero] at hw
  exact matchPat_chars toks c hc prev s nc h (mem_take_of_drop_cons s w₀ c p nc.1 hw hpn)

/-- For a pattern headed by the window's head literal, with that
character absent from all later tokens, the window cannot start
strictly inside a match. -/
theorem noStartInside_of_headLit (c₀ : Char) (ts : List Tok) (w : Str)
    (hc : ∀ t ∈ ts, charInB c₀ t = false) :
    ∀ (prev : Option Char) (s : Str) (nc : Nat × List Str),
      matchPat (.lit c₀ :: ts) prev s = some nc →
      ∀ p, 0 < p → p < nc.1 → startsW (c₀ :: w) (s.drop p) = false := by
  intro prev s nc h p hp0 hpn
  by_contra hst
  rw [Bool.not_eq_false] at hst
  obtain ⟨w₀, hw⟩ := startsW_drop_char (c₀ :: w) w s c₀ p 0 rfl hst
  rw [Nat.add_zero] at hw
  have h1 : (s.take nc.1).drop p = (s.drop p).take (nc.1 - p) := List.drop_take nc.1 p s
  have h2 : nc.1 - p = (nc.1 - p - 1) + 1 := by omega
  have h3 : c₀ ∈ (s.take nc.1).drop p := by
    rw [h1, hw, h2, List.take_succ_cons]
    exact List.mem_cons_self _ _
  exact matchPat_tail_chars c₀ ts c₀ hc prev s nc h p hp0 h3

/-- For a pattern ending in a literal `d`, a window `c₀ c₁ b …` whose
first two characters differ from `d` and whose third character lies in
no token's character set cannot start strictly inside a match. -/
theorem noStartInside_of_endLit (init : List Tok) (d c₀ c₁ b : Char) (z : Str)
    (hc : ∀ t ∈ init ++ [.lit d], charInB b t = false)
    (h0 : c₀ ≠ d) (h1 : c₁ ≠ d) :
    ∀ (prev : Option Char) (s : Str) (nc : Nat × List Str),
      matchPat (init ++ [.lit d]) prev s = some nc →
      ∀ p, 0 < p → p < nc.1 → startsW (c₀ :: c₁ :: b :: z) (s.drop p) = false := by
  intro prev s nc h p hp0 hpn
  by_contra hst
  rw [Bool.not_eq_false] at hst
  obtain ⟨A, hA⟩ := matchPat_last_char init d prev s nc h
  have hs := startsW_take (c₀ :: c₁ :: b :: z) (s.drop p) hst
  rcases (by omega : p + 2 < nc.1 ∨ p + 1 = nc.1 ∨ p + 2 = nc.1) with hc2 | hc2 | hc2
  · obtain ⟨w₀, hw⟩ := startsW_drop_char (c₀ :: c₁ :: b :: z) z s b p 2 rfl hst
    exact matchPat_chars _ b hc prev s nc h
      (mem_take_of_drop_cons s w₀ b (p + 2) nc.1 hw hc2)
  · rw [← hc2, List.take_add, hs] at hA
    have hA' : s.take p ++ [c₀] = A ++ [d] := by
      rw [← hA]
      simp
    have := (List.append_inj' hA' rfl).2
    simp only [List.cons.injEq] at this
    exact h0 this.1
  · rw [← hc2, List.take_add, hs] at hA
    have hA' : (s.take p ++ [c₀]) ++ [c₁] = A ++ [d] := by
      rw [← hA]
      simp
    have := (List.append_inj' hA' rfl).2
    simp only [List.cons.injEq] at this
    exact h1 this.1

/-- A pattern headed by a literal fails at any position whose head
character differs from it. -/
theorem matchPat_lit_head_ne (c d : Char) (ts : List Tok) (prev : Option Char) (t : Str)
    (hne : d ≠ c) : matchPat (.lit c :: ts) prev (d :: t) = none := by
  unfold matchPat
  rw [matchToks]
  simp [hne]

/-! ## Concrete matcher evaluations on the parity literals -/

theorem parity1_eval (prev : Option Char) (y : Str) :
    matchPat patParityNeq prev (str ("n % 2 != 0") ++ y) = some (10, []) := by
  show matchPat patParityNeq prev
    ('n' :: ' ' :: '%' :: ' ' :: '2' :: ' ' :: '!' :: '=' :: ' ' :: '0' :: y) = some (10, [])
  simp +decide [matchPat, patParityNeq, matchToks, starTry, runLen, wsChar]

theorem parity2_eval (prev : Option Char) (y : Str) :
    matchPat patParityNeqStrict prev (str ("n % 2 !== 0") ++ y) = some (11, []) := by
  show matchPat patParityNeqStrict prev
    ('n' :: ' ' :: '%' :: ' ' :: '2' :: ' ' :: '!' :: '=' :: '=' :: ' ' :: '0' :: y) =
      some (11, [])
  simp +decide [matchPat, patParityNeqStrict, matchToks, starTry, runLen, wsChar]

theorem parityStrict_eq_window_eval (prev : Option Char) (y : Str) :
    matchPat patParityNeqStrict prev (str ("n % 2 == 0") ++ y) = none := by
  show matchPat patParityNeqStrict prev
    ('n' :: ' ' :: '%' :: ' ' :: '2' :: ' ' :: '=' :: '=' :: ' ' :: '0' :: y) = none
  simp +decide [matchPat, patParityNeqStrict, matchToks, starTry, runLen, wsChar]

/-! ## The equality window survives the five later fix rules -/

theorem K1_rule2 : ∀ j, j < 10 → ∀ (prev : Option Char) (y : Str),
    matchPat patParityNeqStrict prev ((str ("n % 2 == 0")).drop j ++ y) = none := by
  intro j hj prev y
  interval_cases j
  · exact parityStrict_eq_window_eval prev y
  · exact matchPat_lit_head_ne 'n' ' ' _ prev _ (by decide)
  · exact matchPat_lit_head_ne 'n' '%' _ prev _ (by decide)
  · exact matchPat_lit_head_ne 'n' ' ' _ prev _ (by decide)
  · exact matchPat_lit_head_ne 'n' '2' _ prev _ (by decide)
  · exact matchPat_lit_head_ne 'n' ' ' _ prev _ (by decide)
  · exact matchPat_lit_head_ne 'n' '=' _ prev _ (by decide)
  · exact matchPat_lit_head_ne 'n' '=' _ prev _ (by decide)
  · exact matchPat_lit_head_ne 'n' ' ' _ prev _ (by decide)
  · exact matchPat_lit_head_ne 'n' '0' _ prev _ (by decide)

theorem K1_rule3 : ∀ j, j < 10 → ∀ (prev : Option Char) (y : Str),
    matchPat patForOffByOne prev ((str ("n % 2 == 0")).drop j ++ y) = none := by
  intro j hj prev y
  interval_cases j <;> exact matchPat_lit_head_ne 'f' _ _ prev _ (by decide)

theorem K1_rule4 : ∀ j, j < 10 → ∀ (prev : Option Char) (y : Str),
    matchPat patArrBound prev ((str ("n % 2 == 0")).drop j ++ y) = none := by
  intro j hj prev y
  interval_cases j <;> exact matchPat_lit_head_ne '[' _ _ prev _ (by decide)

theorem K1_rule5 : ∀ j, j < 10 → ∀ (prev : Option Char) (y : Str),
    matchPat patAndTrue prev ((str ("n % 2 == 0")).drop j ++ y) = none := by
  intro j hj prev y
  interval_cases j <;> exact matchPat_lit_head_ne '&' _ _ prev _ (by decide)

theorem K1_rule6 : ∀ j, j < 10 → ∀ (prev : Option Char) (y : Str),
    matchPat patOrFalse prev ((str ("n % 2 == 0")).drop j ++ y) = none := by
  intro j hj prev y
  interval_cases j <;> exact matchPat_lit_head_ne '|' _ _ prev _ (by decide)

theorem K2_rule2 : ∀ (prev : Option Char) (s : Str) (nc : Nat × List Str),
    matchPat patParityNeqStrict prev s = some nc →
    ∀ p, 0 < p → p < nc.1 → startsW (str ("n % 2 == 0")) (s.drop p) = false := by
  intro prev s nc h p hp0 hpn
  exact noStartInside_of_headLit 'n'
    [.star wsChar, .lit '%', .star wsChar, .lit '2', .star wsChar,
     .lit '!', .lit '=', .lit '=', .star wsChar, .lit '0']
    (str (" % 2 == 0")) (by decide) prev s nc h p hp0 hpn

def patForOffByOneInit : List Tok :=
  litsOf (str ("for")) ++
  [.star wsChar, .lit '(', .star wsChar, .plus wordChar, .star wsChar, .lit '=',
   .star wsChar, .lit '0', .lit ';', .star wsChar, .plus wordChar, .star wsChar,
   .lit '<', .star wsChar, .openG, .plus wordChar, .closeG] ++
  litsOf (str (".length")) ++ [.star wsChar, .lit '-', .star wsChar]

theorem patForOffByOne_split : patForOffByOne = patForOffByOneInit ++ [.lit '1'] := by
  rfl

theorem K2_rule3 : ∀ (prev : Option Char) (s : Str) (nc : Nat × List Str),
    matchPat patForOffByOne prev s = some nc →
    ∀ p, 0 < p → p < nc.1 → startsW (str ("n % 2 == 0")) (s.drop p) = false := by
  intro prev s nc h p hp0 hpn
  rw [patForOffByOne_split] at h
  exact noStartInside_of_endLit patForOffByOneInit '1' 'n' ' ' '%' (str (" 2 == 0"))
    (by decide) (by decide) (by decide) prev s nc h p hp0 hpn

def patArrBoundInit : List Tok :=
  [.lit '[', .star wsChar, .openG, .plus wordChar, .closeG] ++
  litsOf (str (".length")) ++ [.star wsChar]

theorem patArrBound_split : patArrBound = patArrBoundInit ++ [.lit ']'] := by
  rfl

theorem K2_rule4 : ∀ (prev : Option Char) (s : Str) (nc : Nat × List Str),
    matchPat patArrBound prev s = some nc →
    ∀ p, 0 < p → p < nc.1 → startsW (str ("n % 2 == 0")) (s.drop p) = false := by
  intro prev s nc h p hp0 hpn
  rw [patArrBound_split] at h
  exact noStartInside_of_endLit patArrBoundInit ']' 'n' ' ' '%' (str (" 2 == 0"))
    (by decide) (by decide) (by decide) prev s nc h p hp0 hpn

theorem K2_rule5 : ∀ (prev : Option Char) (s : Str) (nc : Nat × List Str),
    matchPat patAndTrue prev s = some nc →
    ∀ p, 0 < p → p < nc.1 → startsW (str ("n % 2 == 0")) (s.drop p) = false := by
  intro prev s nc h p hp0 hpn
  exact noStartInside_of_absent patAndTrue 'n' (str (" % 2 == 0"))
    (by decide) prev s nc h p hp0 hpn

theorem K2_rule6 : ∀ (prev : Option Char) (s : Str) (nc : Nat × List Str),
    matchPat patOrFalse prev s = some nc →
    ∀ p, 0 < p → p < nc.1 → startsW (str ("n % 2 == 0")) (s.drop p) = false := by
  intro prev s nc h p hp0 hpn
  exact noStartInside_of_absent patOrFalse 'n' (str (" % 2 == 0"))
    (by decide) prev s nc h p hp0 hpn

/-! ## A firing rule leaves its replacement text in the output -/

theorem hasSub_prefix (R z : Str) : hasSub (R ++ z) R = true :=
  hasSub_of_eq_append _ [] R z (by simp)

theorem replaceAll_hits_aux (toks : List Tok) (R X : Str) (hX : X ≠ [])
    (hm : ∀ (prev : Option Char) (y : Str),
      ∃ nc : Nat × List Str, matchPat toks prev (X ++ y) = some nc ∧ 0 < nc.1) :
    ∀ (fuel : Nat) (prev : Option Char) (a b : Str),
      (a ++ (X ++ b)).length ≤ fuel →
      hasSub (replaceAllAux toks (fun _ => R) fuel prev (a ++ (X ++ b))) R = true := by
  intro fuel
  induction fuel with
  | zero =>
      intro prev a b hlen
      simp only [List.length_append, Nat.le_zero] at hlen
      exact absurd (List.length_eq_zero.mp (by omega)) hX
  | succ fuel ih =>
      intro prev a b hlen
      cases a with
      | nil =>
          obtain ⟨nc, hmm, hpos⟩ := hm prev b
          cases X with
          | nil => exact absurd rfl hX
          | cons x₀ X' =>
              simp only [List.nil_append, List.cons_append] at hmm hlen ⊢
              rw [replaceAllAux_step_match toks _ fuel prev x₀ (X' ++ b) nc hmm hpos]
              exact hasSub_prefix R _
      | cons c a' =>
          rw [List.cons_append]
          by_cases hstep : ∃ nc : Nat × List Str,
              matchPat toks prev (c :: (a' ++ (X ++ b))) = some nc ∧ 0 < nc.1
          · obtain ⟨nc, hmm, hpos⟩ := hstep
            rw [replaceAllAux_step_match toks _ fuel prev c _ nc hmm hpos]
            exact hasSub_prefix R _
          · push_neg at hstep
            rw [replaceAllAux_step_keep toks _ fuel prev c _
              (fun nc hmc => Nat.not_lt.mpr (hstep nc hmc))]
            rw [hasSub_cons]
            have := ih (some c) a' b (by
              simp only [List.length_cons, List.length_append] at hlen ⊢
              omega)
            rw [this]
            simp

theorem replaceAll_hits (toks : List Tok) (R X : Str) (hX : X ≠ [])
    (hm : ∀ (prev : Option Char) (y : Str),
      ∃ nc : Nat × List Str, matchPat toks prev (X ++ y) = some nc ∧ 0 < nc.1)
    (s : Str) (h : hasSub s X = true) :
    hasSub (replaceAll toks (fun _ => R) s) R = true := by
  obtain ⟨a, b, rfl⟩ := hasSub_exists s X h
  exact replaceAll_hits_aux toks R X hX hm _ none a b (Nat.le_refl _)

theorem firstCaps_some_of (toks : List Tok) (X : Str) (hX : X ≠ [])
    (hm : ∀ (prev : Option Char) (y : Str),
      ∃ nc : Nat × List Str, matchPat toks prev (X ++ y) = some nc ∧ 0 < nc.1) :
    ∀ (a : Str) (prev : Option Char) (b : Str),
      (firstCaps toks prev (a ++ (X ++ b))).isSome = true := by
  intro a
  induction a with
  | nil =>
      intro prev b
      obtain ⟨nc, hmm, _⟩ := hm prev b
      cases X with
      | nil => exact absurd rfl hX
      | cons x₀ X' =>
          simp only [List.nil_append, List.cons_append] at hmm ⊢
          simp only [firstCaps, hmm]
          rfl
  | cons c a' ih =>
      intro prev b
      rw [List.cons_append]
      simp only [firstCaps]
      cases hmp : matchPat toks prev (c :: (a' ++ (X ++ b))) with
      | some nc => rfl
      | none => exact ih (some c) b

theorem testPat_of_hasSub (toks : List Tok) (X : Str) (hX : X ≠ [])
    (hm : ∀ (prev : Option Char) (y : Str),
      ∃ nc : Nat × List Str, matchPat toks prev (X ++ y) = some nc ∧ 0 < nc.1)
    (s : Str) (h : hasSub s X = true) : testPat toks s = true := by
  obtain ⟨a, b, rfl⟩ := hasSub_exists s X h
  exact firstCaps_some_of toks X hX hm a none b

/-! ## The comment-insertion step and substring preservation -/

theorem endsW_of_append (m w : Str) : endsW m (w ++ m) = true := by
  unfold endsW
  rw [List.reverse_append]
  exact startsW_append_right _ _

theorem endsW_exists (u v : Str) (h : endsW u v = true) : ∃ w, v = w ++ u := by
  unfold endsW at h
  have hv := congrArg List.reverse (startsW_take _ _ h)
  refine ⟨(v.reverse.drop u.reverse.length).reverse, ?_⟩
  simpa using hv

theorem suffix_from_append (a T u m : Str) (h : a ++ T = u ++ m)
    (hm : m.length ≤ T.length) : ∃ w, T = w ++ m := by
  have hlen : a.length + T.length = u.length + m.length := by
    have := congrArg List.length h
    simpa using this
  have hu : u.length = a.length + (T.length - m.length) := by omega
  have hdrop := congrArg (List.drop u.length) h
  rw [List.drop_left] at hdrop
  have hT : (a ++ T).drop u.length = T.drop (T.length - m.length) := by
    rw [hu, ← List.drop_drop, List.drop_left]
  rw [hT] at hdrop
  have hsplit := List.take_append_drop (T.length - m.length) T
  rw [hdrop] at hsplit
  exact ⟨T.take (T.length - m.length), hsplit.symm⟩

/-- Splicing `E` in right after a `T` that ends the prefix preserves a
window `L` no nonempty proper prefix of which ends `T`. -/
theorem insert_preserves_hasSub (L T E A b : Str)
    (hLT : L.length ≤ T.length + 1)
    (hA : ∃ a, A = a ++ T)
    (d1 : ∀ k, 0 < k → k < L.length → endsW (L.take k) T = false)
    (h : hasSub (A ++ b) L = true) :
    hasSub (A ++ (E ++ b)) L = true := by
  obtain ⟨a, rfl⟩ := hA
  rcases hasSub_append_cases L (a ++ T) b h with h1 | h1 | ⟨k, hk0, hkL, hend, _⟩
  · exact hasSub_append_left_of _ _ _ h1
  · have := hasSub_append_right_of ((a ++ T) ++ E) b L h1
    simpa [List.append_assoc] using this
  · exfalso
    obtain ⟨w, hw⟩ := endsW_exists (L.take k) (a ++ T) hend
    have hkT : (L.take k).length ≤ T.length := by
      rw [List.length_take]
      omega
    obtain ⟨w', hw'⟩ := suffix_from_append a T w (L.take k) hw hkT
    have : endsW (L.take k) T = true := by
      rw [hw']
      exact endsW_of_append _ _
    rw [d1 k hk0 hkL] at this
    cases this

/-- Splicing `E` in right after a `T` cannot create an occurrence of a
literal `X` absent before, provided `X` cannot sit inside `T ++ E`,
cannot end a prefix of it, and cannot jump over it. -/
theorem insert_preserves_noLit (X T E a b : Str)
    (hXT : X.length ≤ T.length + 1)
    (c3 : hasSub (T ++ E) X = false)
    (c1 : ∀ k, 0 < k → k < X.length → endsW (X.take k) (T ++ E) = false)
    (h : hasSub (a ++ T ++ b) X = false) :
    hasSub (a ++ (T ++ E) ++ b) X = false := by
  by_contra hc
  rw [Bool.not_eq_false] at hc
  rcases hasSub_append_cases X (a ++ (T ++ E)) b hc with h1 | h1 | ⟨k, hk0, hkX, hend, _⟩
  · rcases hasSub_append_cases X a (T ++ E) h1 with h2 | h2 | ⟨k, hk0, hkX, hend, hstart⟩
    · have : hasSub (a ++ T ++ b) X = true := by
        have h3 := hasSub_append_left_of a (T ++ b) X h2
        simpa [List.append_assoc] using h3
      rw [h] at this
      cases this
    · rw [c3] at h2
      cases h2
    · by_cases hk2 : X.length - k ≤ T.length
      · have hstartT : startsW (X.drop k) T = true := by
          refine startsW_append_left (X.drop k) T E hstart ?_
          rw [List.length_drop]
          exact hk2
        obtain ⟨w, hw⟩ := endsW_exists (X.take k) a hend
        have hT := startsW_take (X.drop k) T hstartT
        have : hasSub (a ++ T ++ b) X = true := by
          obtain ⟨T₂, hT2⟩ : ∃ T₂, T = List.drop k X ++ T₂ := ⟨_, hT⟩
          refine hasSub_of_eq_append _ w X (T₂ ++ b) ?_
          rw [hw, hT2]
          simp only [List.append_assoc]
          rw [← List.append_assoc (List.take k X) (List.drop k X), List.take_append_drop]
        rw [h] at this
        cases this
      · omega
  · have := hasSub_append_right_of (a ++ T) b X h1
    rw [h] at this
    cases this
  · obtain ⟨w, hw⟩ := endsW_exists (X.take k) (a ++ (T ++ E)) hend
    have hkTE : (X.take k).length ≤ (T ++ E).length := by
      rw [List.length_take, List.length_append]
      omega
    obtain ⟨w', hw'⟩ := suffix_from_append a (T ++ E) w (X.take k) hw hkTE
    have : endsW (X.take k) (T ++ E) = true := by
      rw [hw']
      exact endsW_of_append _ _
    rw [c1 k hk0 hkX] at this
    cases this

/-! ## Preservation and removal through one full fix step -/

theorem applyFixRule_keeps (r : FixRule) (L : Str) (hL : L ≠ [])
    (hK1 : ∀ j, j < L.length → ∀ (prev : Option Char) (y : Str),
      matchPat r.pattern prev (L.drop j ++ y) = none)
    (hK2 : ∀ (prev : Option Char) (s : Str) (nc : Nat × List Str),
      matchPat r.pattern prev s = some nc →
      ∀ p, 0 < p → p < nc.1 → startsW L (s.drop p) = false)
    (hIns : r.replacement = [] ∨
      (L.length ≤ r.replacement.length + 1 ∧
       ∀ k, 0 < k → k < L.length → endsW (L.take k) r.replacement = false))
    (x : Str) (h : hasSub x L = true) :
    hasSub (applyFixRule x r) L = true := by
  rw [applyFixRule_eq_spec]
  unfold specFixStep
  by_cases ht : testPat r.pattern x = true
  · simp only [ht, if_true]
    have hrep : hasSub (replaceAll r.pattern r.repF x) L = true :=
      replaceAll_keeps r.pattern r.repF L hL hK1 hK2 x h
    by_cases hcom : hasSub (replaceAll r.pattern r.repF x) r.comment = true
    · simp only [hcom, if_true]
      exact hrep
    · simp only [hcom, Bool.false_eq_true, if_false]
      cases hsp : splitFirst r.replacement (replaceAll r.pattern r.repF x) with
      | none => exact hrep
      | some ab =>
          have hx := splitFirst_eq r.replacement _ ab.1 ab.2 (by rw [hsp])
          rcases hIns with hT | ⟨hLT, d1⟩
          · rw [hT] at hsp
            rw [splitFirst_nil] at hsp
            injection hsp with hab
            rw [← hab, hT]
            simp only [List.nil_append, List.append_nil]
            exact hasSub_append_right_of _ _ _ hrep
          · have hgoal := insert_preserves_hasSub L r.replacement
              (str ("  // ") ++ r.comment) (ab.1 ++ r.replacement) ab.2
              hLT ⟨ab.1, rfl⟩ d1 (by rw [← hx]; exact hrep)
            simpa [List.append_assoc] using hgoal
  · simp only [ht, Bool.false_eq_true, if_false]
    exact h

theorem applyFixRule_removes (r : FixRule) (R X : Str) (hX : X ≠ [])
    (hrepF : r.repF = fun _ => R)
    (hm : ∀ (prev : Option Char) (y : Str),
      ∃ nc : Nat × List Str, matchPat r.pattern prev (X ++ y) = some nc ∧ 0 < nc.1)
    (h2 : hasSub R X = false)
    (h3 : ∀ k, 1 ≤ k → k < X.length → startsW (X.drop k) R = false)
    (h4 : ∀ k, 1 ≤ k → k < X.length → endsW (X.take k) R = false)
    (h5 : X.length ≤ R.length + 1)
    (hT : X.length ≤ r.replacement.length + 1)
    (c3 : hasSub (r.replacement ++ (str ("  // ") ++ r.comment)) X = false)
    (c1 : ∀ k, 0 < k → k < X.length →
      endsW (X.take k) (r.replacement ++ (str ("  // ") ++ r.comment)) = false)
    (x : Str) :
    hasSub (applyFixRule x r) X = false := by
  have h1 : ∀ (prev : Option Char) (s : Str), startsW X s = true →
      ∃ nc : Nat × List Str, matchPat r.pattern prev s = some nc ∧ 0 < nc.1 := by
    intro prev s hs
    have := hm prev (s.drop X.length)
    rw [← startsW_take X s hs] at this
    exact this
  rw [applyFixRule_eq_spec]
  unfold specFixStep
  by_cases ht : testPat r.pattern x = true
  · simp only [ht, if_true]
    have hrem : hasSub (replaceAll r.pattern r.repF x) X = false := by
      rw [hrepF]
      exact (replaceAll_removes r.pattern R X hX h1 h2 h3 h4 h5 x.length none x
        (Nat.le_refl _)).1
    by_cases hcom : hasSub (replaceAll r.pattern r.repF x) r.comment = true
    · simp only [hcom, if_true]
      exact hrem
    · simp only [hcom, Bool.false_eq_true, if_false]
      cases hsp : splitFirst r.replacement (replaceAll r.pattern r.repF x) with
      | none => exact hrem
      | some ab =>
          have hx := splitFirst_eq r.replacement _ ab.1 ab.2 (by rw [hsp])
          have hgoal := insert_preserves_noLit X r.replacement
            (str ("  // ") ++ r.comment) ab.1 ab.2 hT c3 c1
            (by rw [← hx]; exact hrem)
          simpa [List.append_assoc] using hgoal
  · simp only [ht, Bool.false_eq_true, if_false]
    by_contra hcc
    rw [Bool.not_eq_false] at hcc
    exact ht (testPat_of_hasSub r.pattern X hX hm x hcc)

/-! ## The parity window and the six table rules -/

theorem L10 : (str ("n % 2 == 0")).length = 10 := by decide

theorem X10 : (str ("n % 2 != 0")).length = 10 := by decide

/-- A rule whose replacement template equals its constant replacement
text leaves that text in its step output whenever the trigger literal
`X` occurs (the insertion step splices the comment right after it). -/
theorem applyFixRule_lands (r : FixRule) (R X : Str) (hX : X ≠ [])
    (hrepF : r.repF = fun _ => R)
    (hTrep : r.replacement = R)
    (hm : ∀ (prev : Option Char) (y : Str),
      ∃ nc : Nat × List Str, matchPat r.pattern prev (X ++ y) = some nc ∧ 0 < nc.1)
    (x : Str) (h : hasSub x X = true) :
    hasSub (applyFixRule x r) R = true := by
  rw [applyFixRule_eq_spec]
  unfold specFixStep
  have ht : testPat r.pattern x = true := testPat_of_hasSub _ X hX hm x h
  simp only [ht, if_true]
  have hrep : hasSub (replaceAll r.pattern r.repF x) R = true := by
    rw [hrepF]
    exact replaceAll_hits r.pattern R X hX hm x h
  by_cases hcom : hasSub (replaceAll r.pattern r.repF x) r.comment = true
  · simp only [hcom, if_true]
    exact hrep
  · simp only [hcom, Bool.false_eq_true, if_false]
    cases hsp : splitFirst r.replacement (replaceAll r.pattern r.repF x) with
    | none =>
        exfalso
        rw [hTrep] at hsp
        unfold hasSub at hrep
        rw [hsp] at hrep
        cases hrep
    | some ab =>
        rw [hTrep]
        exact hasSub_of_eq_append _ ab.1 R ((str ("  // ") ++ r.comment) ++ ab.2) (by simp)

theorem stepKeep2 (x : Str) (h : hasSub x (str ("n % 2 == 0")) = true) :
    hasSub (applyFixRule x
      { pattern := patParityNeqStrict, repF := fun _ => str ("n % 2 === 0"),
        replacement := str ("n % 2 === 0"),
        comment := str ("Fixed: even numbers have remainder 0") })
      (str ("n % 2 == 0")) = true := by
  refine applyFixRule_keeps _ _ (by decide) ?_ ?_ ?_ x h
  · intro j hj prev y
    exact K1_rule2 j (by rw [L10] at hj; exact hj) prev y
  · exact K2_rule2
  · refine Or.inr ⟨by decide, ?_⟩
    intro k hk0 hkL
    rw [L10] at hkL
    interval_cases k <;> decide

theorem stepKeep3 (x : Str) (h : hasSub x (str ("n % 2 == 0")) = true) :
    hasSub (applyFixRule x
      { pattern := patForOffByOne,
        repF := fun cs => str ("for (let i = 0; i < ") ++ cs.getD 0 [] ++ str (".length"),
        replacement := str ("for (let i = 0; i < $1.length"),
        comment := str ("Fixed: off-by-one error") })
      (str ("n % 2 == 0")) = true := by
  refine applyFixRule_keeps _ _ (by decide) ?_ ?_ ?_ x h
  · intro j hj prev y
    exact K1_rule3 j (by rw [L10] at hj; exact hj) prev y
  · exact K2_rule3
  · refine Or.inr ⟨by decide, ?_⟩
    intro k hk0 hkL
    rw [L10] at hkL
    interval_cases k <;> decide

theorem stepKeep4 (x : Str) (h : hasSub x (str ("n % 2 == 0")) = true) :
    hasSub (applyFixRule x
      { pattern := patArrBound,
        repF := fun cs => str ("[") ++ cs.getD 0 [] ++ str (".length - 1]"),
        replacement := str ("[$1.length - 1]"),
        comment := str ("Fixed: array index out of bounds") })
      (str ("n % 2 == 0")) = true := by
  refine applyFixRule_keeps _ _ (by decide) ?_ ?_ ?_ x h
  · intro j hj prev y
    exact K1_rule4 j (by rw [L10] at hj; exact hj) prev y
  · exact K2_rule4
  · refine Or.inr ⟨by decide, ?_⟩
    intro k hk0 hkL
    rw [L10] at hkL
    interval_cases k <;> decide

theorem stepKeep5 (x : Str) (h : hasSub x (str ("n % 2 == 0")) = true) :
    hasSub (applyFixRule x
      { pattern := patAndTrue, repF := fun _ => [], replacement := [],
        comment := str ("Simplified: && true is redundant") })
      (str ("n % 2 == 0")) = true := by
  refine applyFixRule_keeps _ _ (by decide) ?_ ?_ (Or.inl rfl) x h
  · intro j hj prev y
    exact K1_rule5 j (by rw [L10] at hj; exact hj) prev y
  · exact K2_rule5

theorem stepKeep6 (x : Str) (h : hasSub x (str ("n % 2 == 0")) = true) :
    hasSub (applyFixRule x
      { pattern := patOrFalse, repF := fun _ => [], replacement := [],
        comment := str ("Simplified: || false is redundant") })
      (str ("n % 2 == 0")) = true := by
  refine applyFixRule_keeps _ _ (by decide) ?_ ?_ (Or.inl rfl) x h
  · intro j hj prev y
    exact K1_rule6 j (by rw [L10] at hj; exact hj) prev y
  · exact K2_rule6

/-- Claim C1 (amended): for every input containing the literal
`n % 2 != 0`, the fix-mode output contains `n % 2 == 0` (the parity
rule rewrites every occurrence, splices its comment after the first
rewritten occurrence, and none of the five later rules can destroy the
equality text); and the parity rule's own step — the first iteration
of the table fold — leaves no occurrence of `n % 2 != 0`.  The claim's
further assertion that the whole fix-mode output no longer contains
the `!=` comparison is refuted separately: a later deletion rule can
re-create it. -/
theorem fixLogicalErrors_parity_amended (code lang : Str)
    (h : hasSub code (str ("n % 2 != 0")) = true) :
    hasSub (fixLogicalErrors code lang) (str ("n % 2 == 0")) = true ∧
    hasSub (List.foldl applyFixRule code (errorPatterns.take 1))
      (str ("n % 2 != 0")) = false := by
  have hm1 : ∀ (prev : Option Char) (y : Str),
      ∃ nc : Nat × List Str,
        matchPat patParityNeq prev (str ("n % 2 != 0") ++ y) = some nc ∧ 0 < nc.1 :=
    fun prev y => ⟨(10, []), parity1_eval prev y, by omega⟩
  constructor
  · have s1 : hasSub (applyFixRule code
        { pattern := patParityNeq, repF := fun _ => str ("n % 2 == 0"),
          replacement := str ("n % 2 == 0"),
          comment := str ("Fixed: even numbers have remainder 0") })
        (str ("n % 2 == 0")) = true :=
      applyFixRule_lands _ (str ("n % 2 == 0")) (str ("n % 2 != 0"))
        (by decide) rfl rfl hm1 code h
    exact stepKeep6 _ (stepKeep5 _ (stepKeep4 _ (stepKeep3 _ (stepKeep2 _ s1))))
  · show hasSub (applyFixRule code
      { pattern := patParityNeq, repF := fun _ => str ("n % 2 == 0"),
        replacement := str ("n % 2 == 0"),
        comment := str ("Fixed: even numbers have remainder 0") })
      (str ("n % 2 != 0")) = false
    refine applyFixRule_removes _ (str ("n % 2 == 0")) (str ("n % 2 != 0"))
      (by decide) rfl hm1 (by decide) ?_ ?_ (by decide) (by decide) (by decide) ?_ code
    · intro k hk0 hkX
      rw [X10] at hkX
      interval_cases k <;> decide
    · intro k hk0 hkX
      rw [X10] at hkX
      interval_cases k <;> decide
    · intro k hk0 hkX
      rw [X10] at hkX
      interval_cases k <;> decide

/-- Concrete instantiation of the amended parity theorem. -/
theorem fixLogicalErrors_parity_amended_witness :
    hasSub (str ("return n % 2 != 0")) (str ("n % 2 != 0")) = true ∧
    (hasSub (fixLogicalErrors (str ("return n % 2 != 0")) (str ("python")))
        (str ("n % 2 == 0")) = true ∧
      hasSub (List.foldl applyFixRule (str ("return n % 2 != 0")) (errorPatterns.take 1))
        (str ("n % 2 != 0")) = false) :=
  ⟨by decide, fixLogicalErrors_parity_amended (str ("return n % 2 != 0"))
    (str ("python")) (by decide)⟩

/-! ## The conversion pipelines factor through the parity correction -/

/-- `convertPythonToJavaScript`'s replacement chain after its first
(parity) replacement. -/
def pyJsReplacedRest (s1 : Str) : Str :=
  let s2 := replaceAll patDefHdr
    (fun cs => str ("function ") ++ cs.getD 0 [] ++ str ("(") ++ cs.getD 1 [] ++ str (") \x7b")) s1
  let s3 := replaceAll patReturn
    (fun cs => str ("  return ") ++ cs.getD 0 [] ++ str (";")) s2
  let s4 := replaceAll patTrue (fun _ => str ("true")) s3
  let s5 := replaceAll patFalse (fun _ => str ("false")) s4
  let s6 := replaceAll patNone (fun _ => str ("null")) s5
  let s7 := replaceAll patElif (fun _ => str ("else if")) s6
  let s8 := replaceAll patColonEOL (fun _ => str (" \x7b")) s7
  let s9 := replaceAll patPrint
    (fun cs => str ("console.log(") ++ cs.getD 0 [] ++ str (")")) s8
  let s10 := replaceAll patFString (fun cs => [btick] ++ cs.getD 0 [] ++ [btick]) s9
  replaceAll patBraceInterp
    (fun cs => str ("$") ++ [lbrace] ++ cs.getD 0 [] ++ [rbrace]) s10

/-- The python-to-javascript pipeline after its first replacement. -/
def convertPythonToJavaScriptRest (s1 : Str) : Str :=
  let lines := splitNL (pyJsReplacedRest s1)
  let b := buildLines lines 0 0
  joinNL (b.1 ++ closingBraces b.2.1 b.2.2)

/-- The python-to-typescript pipeline after its first replacement. -/
def convertPythonToTypeScriptRest (s1 : Str) : Str :=
  replaceAll patFuncHdrParen tsAnnotateRepPy (convertPythonToJavaScriptRest s1)

/-- The python-to-java pipeline after its first replacement. -/
def convertPythonToJavaRest (s1 : Str) : Str :=
  let s2 := replaceAll patDefHdr javaDefRep s1
  let s3 := replaceAll patReturn
    (fun cs => str ("        return ") ++ cs.getD 0 [] ++ str (";")) s2
  let s4 := replaceAll patTrue (fun _ => str ("true")) s3
  let s5 := replaceAll patFalse (fun _ => str ("false")) s4
  let s6 := replaceAll patNone (fun _ => str ("null")) s5
  let converted := replaceAll patPrint javaPrintRep s6
  str ("public class CodeConverter \x7b\n") ++ converted ++
  str ("\n    \x7d\n\n    public static void main(String[] args) \x7b\n        // Test the converted function\n        System.out.println(\"Testing converted function:\");\n        // Add test calls here\n    \x7d\n\x7d")

/-- The python-to-cpp pipeline after its first replacement. -/
def convertPythonToCppRest (s1 : Str) : Str :=
  let s2 := replaceAll patDefHdr cppDefRep s1
  let s3 := replaceAll patReturn
    (fun cs => str ("    return ") ++ cs.getD 0 [] ++ str (";")) s2
  let s4 := replaceAll patTrue (fun _ => str ("true")) s3
  let s5 := replaceAll patFalse (fun _ => str ("false")) s4
  let converted := replaceAll patPrint
    (fun cs => str ("cout << ") ++ cs.getD 0 [] ++ str (" << endl")) s5
  str ("#include <iostream>\nusing namespace std;\n\n") ++ converted ++
  str ("\n\x7d\n\nint main() \x7b\n    cout << boolalpha;\n    // Test the converted function\n    cout << \"Testing converted function:\" << endl;\n    // Add test calls here\n    return 0;\n\x7d")

/-- The javascript-to-python pipeline after its first replacement. -/
def convertJavaScriptToPythonRest (s1 : Str) : Str :=
  let s2 := replaceAll patFunctionHdrBrace
    (fun cs => str ("def ") ++ cs.getD 0 [] ++ str ("(") ++ cs.getD 1 [] ++ str ("):")) s1
  let s3 := replaceAll patVarDecl
    (fun cs => cs.getD 0 [] ++ str (" = ") ++ cs.getD 1 []) s2
  let s4 := replaceAll patReturnSemi
    (fun cs => str ("return ") ++ cs.getD 0 []) s3
  let s5 := replaceAll patTrueLow (fun _ => str ("True")) s4
  let s6 := replaceAll patFalseLow (fun _ => str ("False")) s5
  let s7 := replaceAll patNullLow (fun _ => str ("None")) s6
  let s8 := replaceAll patConsoleLog
    (fun cs => str ("print(") ++ cs.getD 0 [] ++ str (")")) s7
  let s9 := replaceAll patRBrace (fun _ => []) s8
  let s10 := replaceAll patSemiEOL (fun _ => []) s9
  let s11 := replaceAll patTemplateLit
    (fun cs => str ("f\"") ++ cs.getD 0 [] ++ str ("\"")) s10
  replaceAll patDollarInterp
    (fun cs => [lbrace] ++ cs.getD 0 [] ++ [rbrace]) s11

theorem X11 : (str ("n % 2 !== 0")).length = 11 := by decide

theorem h1_of_hm (toks : List Tok) (X : Str)
    (hm : ∀ (prev : Option Char) (y : Str),
      ∃ nc : Nat × List Str, matchPat toks prev (X ++ y) = some nc ∧ 0 < nc.1) :
    ∀ (prev : Option Char) (s : Str), startsW X s = true →
      ∃ nc : Nat × List Str, matchPat toks prev s = some nc ∧ 0 < nc.1 := by
  intro prev s hs
  have := hm prev (s.drop X.length)
  rw [← startsW_take X s hs] at this
  exact this

theorem parityStep_pyjs (code : Str) (h : hasSub code (str ("n % 2 != 0")) = true) :
    hasSub (replaceAll patParityNeq (fun _ => str ("n % 2 === 0")) code)
        (str ("n % 2 != 0")) = false ∧
      hasSub (replaceAll patParityNeq (fun _ => str ("n % 2 === 0")) code)
        (str ("n % 2 === 0")) = true := by
  have hm1 : ∀ (prev : Option Char) (y : Str),
      ∃ nc : Nat × List Str,
        matchPat patParityNeq prev (str ("n % 2 != 0") ++ y) = some nc ∧ 0 < nc.1 :=
    fun prev y => ⟨(10, []), parity1_eval prev y, by omega⟩
  constructor
  · exact (replaceAll_removes patParityNeq (str ("n % 2 === 0")) (str ("n % 2 != 0"))
      (by decide) (h1_of_hm _ _ hm1) (by decide)
      (fun k hk0 hkX => by rw [X10] at hkX; interval_cases k <;> decide)
      (fun k hk0 hkX => by rw [X10] at hkX; interval_cases k <;> decide)
      (by decide) code.length none code (Nat.le_refl _)).1
  · exact replaceAll_hits patParityNeq (str ("n % 2 === 0")) (str ("n % 2 != 0"))
      (by decide) hm1 code h

theorem parityStep_pyjava (code : Str) (h : hasSub code (str ("n % 2 != 0")) = true) :
    hasSub (replaceAll patParityNeq (fun _ => str ("n % 2 == 0")) code)
        (str ("n % 2 != 0")) = false ∧
      hasSub (replaceAll patParityNeq (fun _ => str ("n % 2 == 0")) code)
        (str ("n % 2 == 0")) = true := by
  have hm1 : ∀ (prev : Option Char) (y : Str),
      ∃ nc : Nat × List Str,
        matchPat patParityNeq prev (str ("n % 2 != 0") ++ y) = some nc ∧ 0 < nc.1 :=
    fun prev y => ⟨(10, []), parity1_eval prev y, by omega⟩
  constructor
  · exact (replaceAll_removes patParityNeq (str ("n % 2 == 0")) (str ("n % 2 != 0"))
      (by decide) (h1_of_hm _ _ hm1) (by decide)
      (fun k hk0 hkX => by rw [X10] at hkX; interval_cases k <;> decide)
      (fun k hk0 hkX => by rw [X10] at hkX; interval_cases k <;> decide)
      (by decide) code.length none code (Nat.le_refl _)).1
  · exact replaceAll_hits patParityNeq (str ("n % 2 == 0")) (str ("n % 2 != 0"))
      (by decide) hm1 code h

theorem parityStep_jspy (code : Str) (h : hasSub code (str ("n % 2 !== 0")) = true) :
    hasSub (replaceAll patParityNeqStrict (fun _ => str ("n % 2 == 0")) code)
        (str ("n % 2 !== 0")) = false ∧
      hasSub (replaceAll patParityNeqStrict (fun _ => str ("n % 2 == 0")) code)
        (str ("n % 2 == 0")) = true := by
  have hm2 : ∀ (prev : Option Char) (y : Str),
      ∃ nc : Nat × List Str,
        matchPat patParityNeqStrict prev (str ("n % 2 !== 0") ++ y) = some nc ∧ 0 < nc.1 :=
    fun prev y => ⟨(11, []), parity2_eval prev y, by omega⟩
  constructor
  · exact (replaceAll_removes patParityNeqStrict (str ("n % 2 == 0")) (str ("n % 2 !== 0"))
      (by decide) (h1_of_hm _ _ hm2) (by decide)
      (fun k hk0 hkX => by rw [X11] at hkX; interval_cases k <;> decide)
      (fun k hk0 hkX => by rw [X11] at hkX; interval_cases k <;> decide)
      (by decide) code.length none code (Nat.le_refl _)).1
  · exact replaceAll_hits patParityNeqStrict (str ("n % 2 == 0")) (str ("n % 2 !== 0"))
      (by decide) hm2 code h

/-- Claim C2 (amended): the five pipelines python→javascript,
python→typescript, python→java, python→cpp and javascript→python each
apply the parity correction as their first replacement step — the
pipeline factors through a global replacement of the parity-bug
pattern — and that first step removes every occurrence of the bug
literal and, whenever the literal occurred, leaves the corresponding
equality text in its output.  (The python→javascript spelling of the
replacement is `n % 2 === 0`, not `== 0` as the source comment
suggests.)  The other three supported pairs javascript→typescript,
java→python and cpp→python apply no parity correction, refuted
separately by counterexample. -/
theorem conversions_parity_first (code : Str) :
    (convertPythonToJavaScript code =
      convertPythonToJavaScriptRest
        (replaceAll patParityNeq (fun _ => str ("n % 2 === 0")) code)) ∧
    (convertPythonToTypeScript code =
      convertPythonToTypeScriptRest
        (replaceAll patParityNeq (fun _ => str ("n % 2 === 0")) code)) ∧
    (convertPythonToJava code =
      convertPythonToJavaRest
        (replaceAll patParityNeq (fun _ => str ("n % 2 == 0")) code)) ∧
    (convertPythonToCpp code =
      convertPythonToCppRest
        (replaceAll patParityNeq (fun _ => str ("n % 2 == 0")) code)) ∧
    (convertJavaScriptToPython code =
      convertJavaScriptToPythonRest
        (replaceAll patParityNeqStrict (fun _ => str ("n % 2 == 0")) code)) ∧
    (hasSub code (str ("n % 2 != 0")) = true →
      (hasSub (replaceAll patParityNeq (fun _ => str ("n % 2 === 0")) code)
          (str ("n % 2 != 0")) = false ∧
        hasSub (replaceAll patParityNeq (fun _ => str ("n % 2 === 0")) code)
          (str ("n % 2 === 0")) = true) ∧
      (hasSub (replaceAll patParityNeq (fun _ => str ("n % 2 == 0")) code)
          (str ("n % 2 != 0")) = false ∧
        hasSub (replaceAll patParityNeq (fun _ => str ("n % 2 == 0")) code)
          (str ("n % 2 == 0")) = true)) ∧
    (hasSub code (str ("n % 2 !== 0")) = true →
      hasSub (replaceAll patParityNeqStrict (fun _ => str ("n % 2 == 0")) code)
          (str ("n % 2 !== 0")) = false ∧
        hasSub (replaceAll patParityNeqStrict (fun _ => str ("n % 2 == 0")) code)
          (str ("n % 2 == 0")) = true) := by
  refine ⟨?_, ?_, ?_, ?_, ?_, ?_, ?_⟩
  · simp only [convertPythonToJavaScript, convertPythonToJavaScriptRest, pyJsReplaced,
      pyJsReplacedRest]
  · simp only [convertPythonToTypeScript, convertPythonToTypeScriptRest,
      convertPythonToJavaScript, convertPythonToJavaScriptRest, pyJsReplaced,
      pyJsReplacedRest]
  · simp only [convertPythonToJava, convertPythonToJavaRest]
  · simp only [convertPythonToCpp, convertPythonToCppRest]
  · simp only [convertJavaScriptToPython, convertJavaScriptToPythonRest]
  · intro h
    exact ⟨parityStep_pyjs code h, parityStep_pyjava code h⟩
  · intro h
    exact parityStep_jspy code h

/-- Concrete instantiation of the parity-first-step theorem. -/
theorem conversions_parity_first_witness :
    hasSub (str ("if n % 2 != 0:")) (str ("n % 2 != 0")) = true ∧
    hasSub (str ("if (n % 2 !== 0)")) (str ("n % 2 !== 0")) = true ∧
    convertPythonToJavaScript (str ("if n % 2 != 0:")) =
      convertPythonToJavaScriptRest
        (replaceAll patParityNeq (fun _ => str ("n % 2 === 0")) (str ("if n % 2 != 0:"))) ∧
    hasSub (replaceAll patParityNeqStrict (fun _ => str ("n % 2 == 0"))
        (str ("if (n % 2 !== 0)"))) (str ("n % 2 !== 0")) = false :=
  ⟨by decide, by decide,
   (conversions_parity_first (str ("if n % 2 != 0:"))).1,
   ((conversions_parity_first (str ("if (n % 2 !== 0)"))).2.2.2.2.2.2 (by decide)).1⟩
